import Mathlib

/-!
Verification development for the hass-migrate repository: a shallow embedding
of the migration engine (value cleaner, dependency analyzer, orchestrator,
insert strategies) together with theorems settling the specification claims.

Python values, exceptions and datetimes are modelled by explicit inductive
types; stateful orchestration is modelled by explicit state passing and by
small-step transition relations; fallible code returns Except.
-/

namespace HassMigrate

/-- Exception classes that the embedded code can raise.  valueError, osError
and overflowError are the classes datetime.fromtimestamp can raise (the
repository's own test test_timestamp_columns_invalid_timestamp documents that
float infinity raises OverflowError); indexError models out-of-range sequence
subscripts; runtimeError models the RuntimeError raised by the orchestrator. -/
inductive PyError where
  | valueError
  | osError
  | overflowError
  | indexError
  | runtimeError
deriving DecidableEq

/-- Model of a Python float as it matters to the cleaner: a finite value
(represented exactly in microseconds, the precision of datetime), or one of
the non-finite values. -/
inductive PyFloat where
  | finite (usec : Int)
  | inf
  | negInf
  | nan
deriving DecidableEq

/-- Model of a Python datetime: the displayed (wall-clock) time in
microseconds since the Unix epoch, and the utcoffset of its tzinfo in
microseconds (Option.none models a naive datetime). -/
structure PyDateTime where
  usec : Int
  tzoffset : Option Int
deriving DecidableEq

/-- Smallest epoch value (microseconds) representable by datetime:
0001-01-01T00:00:00 UTC. -/
def minTimestampUsec : Int := -62135596800000000

/-- Largest epoch value (microseconds) representable by datetime:
9999-12-31T23:59:59.999999 UTC. -/
def maxTimestampUsec : Int := 253402300799999999

/-- Model of datetime.fromtimestamp(x, tz=timezone.utc): non-finite inputs
raise (OverflowError for infinities, ValueError for NaN, as CPython does and
as the repository's data-cleaner test exercises); finite inputs outside the
representable datetime range raise ValueError; in-range inputs yield an
aware datetime whose wall clock is the UTC civil time. -/
def fromtimestamp (x : PyFloat) : Except PyError PyDateTime :=
  match x with
  | .nan => .error .valueError
  | .inf => .error .overflowError
  | .negInf => .error .overflowError
  | .finite u =>
      if minTimestampUsec ≤ u ∧ u ≤ maxTimestampUsec then
        .ok { usec := u, tzoffset := some 0 }
      else
        .error .valueError

/-- Model of a Python value as the cleaner distinguishes them.  Strings are
modelled as lists of characters.  Note that in Python a bool is also an int;
the embedding keeps them as separate constructors and the places where the
source's isinstance(value, int) also accepts booleans are modelled
explicitly. -/
inductive Value where
  | none
  | str (s : List Char)
  | bool (b : Bool)
  | int (n : Int)
  | float (f : PyFloat)
  | datetime (d : PyDateTime)
  | bytes (bs : List Nat)
deriving DecidableEq

/-- Warnings logged by the cleaner, modelled structurally (the source
interpolates the same data into log messages). -/
inductive Warning where
  | nonBooleanInt (table column : String) (n : Int)
  | invalidTimestamp (table column : String) (v : Value) (e : PyError)
  | rowArity (table : String) (got expected : Nat)
deriving DecidableEq

/-- BOOL_COLUMNS from src/hass_migrate/utils/data_cleaner.py (the identical
set is defined in src/migrate/engine.py): (table, column) pairs that need
int-to-bool conversion. -/
def BOOL_COLUMNS : List (String × String) :=
  [("recorder_runs", "closed_incorrect"),
   ("statistics_meta", "has_mean"),
   ("statistics_meta", "has_sum")]

/-- TIMESTAMP_COLUMNS from src/hass_migrate/utils/data_cleaner.py (the
identical set is defined in src/migrate/engine.py): columns of TIMESTAMP type
that may receive numeric Unix-timestamp values. -/
def TIMESTAMP_COLUMNS : List (String × String) :=
  [("schema_changes", "changed"),
   ("recorder_runs", "start"),
   ("recorder_runs", "end"),
   ("recorder_runs", "created"),
   ("statistics_runs", "start"),
   ("statistics", "created"),
   ("statistics", "start"),
   ("statistics", "last_reset"),
   ("statistics_short_term", "created"),
   ("statistics_short_term", "start"),
   ("statistics_short_term", "last_reset"),
   ("events", "time_fired"),
   ("states", "last_changed"),
   ("states", "last_updated")]

/-- NUL character stripped from strings by the cleaner. -/
def nulChar : Char := Char.ofNat 0

/-- Is the value accepted by isinstance(value, (int, float))?  In Python a
bool is an instance of int, so booleans qualify. -/
def Value.isNumeric : Value → Bool
  | .bool _ => true
  | .int _ => true
  | .float _ => true
  | _ => false

/-- float(value) for a value accepted by isinstance(value, (int, float)):
booleans become 0.0 or 1.0, ints convert exactly, floats are unchanged. -/
def Value.toPyFloat : Value → PyFloat
  | .bool b => .finite (if b then 1000000 else 0)
  | .int n => .finite (n * 1000000)
  | .float f => f
  | _ => .finite 0

/-- clean_value from src/hass_migrate/utils/data_cleaner.py (lines 40-115).
The rules in source order: (1) None stays None; (2) strings have NUL
characters removed, and an empty result becomes None; (3) for (table, column)
in BOOL_COLUMNS a bool passes through, ints 0/1 become bools, any other int
is warned about and returned unchanged, and any other value falls through
unchanged; (4) a naive datetime passes through, an aware one is normalized
to UTC and made naive; (5) for (table, column) in TIMESTAMP_COLUMNS a
numeric value is converted via datetime.fromtimestamp, with ValueError,
OSError and OverflowError all caught (warn and return the value unchanged);
(6) everything else passes through.  The function returns the cleaned value
together with the warnings logged; exceptions escaping the body would appear
as Except.error (none can: the except clause covers every PyError
fromtimestamp yields, as proved below). -/
def clean_value (table column : String) (value : Value) :
    Except PyError (Value × List Warning) :=
  match value with
  | .none => .ok (.none, [])
  | .str s =>
      let s := if nulChar ∈ s then s.filter (fun ch => ch ≠ nulChar) else s
      if s = [] then .ok (.none, []) else .ok (.str s, [])
  | v =>
      if (table, column) ∈ BOOL_COLUMNS then
        match v with
        | .bool b => .ok (.bool b, [])
        | .int n =>
            if n = 0 ∨ n = 1 then .ok (.bool (n == 1), [])
            else .ok (.int n, [.nonBooleanInt table column n])
        | w => .ok (w, [])
      else
        match v with
        | .datetime d =>
            match d.tzoffset with
            | Option.none => .ok (.datetime d, [])
            | some off => .ok (.datetime { usec := d.usec - off, tzoffset := Option.none }, [])
        | w =>
            if (table, column) ∈ TIMESTAMP_COLUMNS ∧ w.isNumeric then
              match fromtimestamp w.toPyFloat with
              | .ok d => .ok (.datetime { usec := d.usec, tzoffset := Option.none }, [])
              | .error PyError.valueError =>
                  .ok (w, [.invalidTimestamp table column w .valueError])
              | .error PyError.osError =>
                  .ok (w, [.invalidTimestamp table column w .osError])
              | .error PyError.overflowError =>
                  .ok (w, [.invalidTimestamp table column w .overflowError])
              | .error e => .error e
            else
              .ok (w, [])

/-- clean_batch_values from src/hass_migrate/utils/data_cleaner.py (lines
118-152): rows whose cell count does not match the column count are dropped
with a warning; every remaining cell is cleaned with clean_value.  The
identically-named helper imported by src/migrate/services/migration_service.py
has this behaviour. -/
def clean_batch_values (table : String) (columns : List String)
    (rows : List (List Value)) :
    Except PyError (List (List Value) × List Warning) :=
  match rows with
  | [] => .ok ([], [])
  | row :: rest => do
      let (tailRows, tailWarns) ← clean_batch_values table columns rest
      if row.length ≠ columns.length then
        .ok (tailRows, .rowArity table row.length columns.length :: tailWarns)
      else do
        let cleaned ← (columns.zip row).mapM (fun cv => do
          let (v, _) ← clean_value table cv.1 cv.2
          pure v)
        .ok (cleaned :: tailRows, tailWarns)

end HassMigrate

namespace Engine

open HassMigrate

/-- clean_value from src/migrate/engine.py (lines 79-146).  The body is
identical to the hass_migrate cleaner except for the except clause of the
timestamp conversion, which catches only ValueError and OSError: an
OverflowError raised by datetime.fromtimestamp (for example for float
infinity) is not caught and propagates to the caller. -/
def clean_value (table column : String) (value : Value) :
    Except PyError (Value × List Warning) :=
  match value with
  | .none => .ok (.none, [])
  | .str s =>
      let s := if nulChar ∈ s then s.filter (fun ch => ch ≠ nulChar) else s
      if s = [] then .ok (.none, []) else .ok (.str s, [])
  | v =>
      if (table, column) ∈ BOOL_COLUMNS then
        match v with
        | .bool b => .ok (.bool b, [])
        | .int n =>
            if n = 0 ∨ n = 1 then .ok (.bool (n == 1), [])
            else .ok (.int n, [.nonBooleanInt table column n])
        | w => .ok (w, [])
      else
        match v with
        | .datetime d =>
            match d.tzoffset with
            | Option.none => .ok (.datetime d, [])
            | some off => .ok (.datetime { usec := d.usec - off, tzoffset := Option.none }, [])
        | w =>
            if (table, column) ∈ TIMESTAMP_COLUMNS ∧ w.isNumeric then
              match fromtimestamp w.toPyFloat with
              | .ok d => .ok (.datetime { usec := d.usec, tzoffset := Option.none }, [])
              | .error PyError.valueError =>
                  .ok (w, [.invalidTimestamp table column w .valueError])
              | .error PyError.osError =>
                  .ok (w, [.invalidTimestamp table column w .osError])
              | .error e => .error e
            else
              .ok (w, [])

end Engine

namespace Dependency

/-- Dependency graph as passed to DependencyAnalyzer.topological_sort in
src/migrate/utils/dependency.py: a Python dict mapping a table name to the
list of tables it depends on, modelled as an insertion-ordered association
list (a dict cannot repeat keys; theorems that need this assume the keys are
duplicate-free). -/
abbrev DepGraph := List (String × List String)

/-- dependencies.get(t, implicit empty): the dependency list recorded for a
table, or the empty list when the dict has no entry for it. -/
def depsOf (dependencies : DepGraph) (t : String) : List String :=
  (dependencies.lookup t).getD []

/-- The in_degree dict after the initialisation loop of topological_sort
(dependency.py lines 70-74): every table of the input list starts at 0 and
is then overwritten with the length of its full dependency list (guarded by
membership in the dict, which holds exactly for the input tables); read back
with in_degree.get(t, 0).  Modelled pointwise as a function. -/
def initInDegree (tables : List String) (dependencies : DepGraph) : String → Nat :=
  fun t => if t ∈ tables then (depsOf dependencies t).length else 0

/-- One iteration of the inner decrement loop of topological_sort
(dependency.py lines 95-98) for a single placed table: every dict entry
whose key is still in remaining and whose dependency list contains the
placed table has its in-degree lowered by one, clamped at zero (max(0, d-1),
which on Nat is truncated subtraction). -/
def decTable (dependencies : DepGraph) (remaining : List String) (table : String)
    (ind : String → Nat) : String → Nat :=
  dependencies.foldl
    (fun ind entry =>
      if entry.1 ∈ remaining ∧ table ∈ entry.2 then
        fun t => if t = entry.1 then ind t - 1 else ind t
      else ind)
    ind

/-- The decrement loop of topological_sort run for every table of the level
just extracted. -/
def decLevel (dependencies : DepGraph) (remaining : List String)
    (level : List String) (ind : String → Nat) : String → Nat :=
  level.foldl (fun ind table => decTable dependencies remaining table ind) ind

/-- The while loop of topological_sort (dependency.py lines 79-98).  Each
round collects the remaining tables of in-degree 0 into a level; if no table
qualifies, a ValueError naming the remaining (stuck) tables is raised,
modelled as Except.error carrying exactly the list interpolated into the
message; otherwise the level is removed from remaining and the in-degrees of
its dependants are decremented.  Python iterates remaining as a set, whose
order is unspecified; the embedding fixes first-occurrence order, which the
claims (stated up to membership) do not depend on. -/
def topoLoop (dependencies : DepGraph) (ind : String → Nat)
    (remaining : List String) (levels : List (List String)) :
    Except (List String) (List (List String)) :=
  if hrem : remaining = [] then .ok levels
  else
    let level := remaining.filter (fun t => ind t == 0)
    if hl : level = [] then .error remaining
    else
      let remaining2 := remaining.filter (fun t => decide (¬ t ∈ level))
      topoLoop dependencies (decLevel dependencies remaining2 level ind) remaining2
        (levels ++ [level])
termination_by remaining.length
decreasing_by
  obtain ⟨x, hx⟩ := List.exists_mem_of_ne_nil _ hl
  have hxr : x ∈ remaining := (List.mem_filter.mp hx).1
  refine lt_of_le_of_ne (List.length_filter_le _ _) (fun heq => ?_)
  have := List.filter_length_eq_length.mp heq x hxr
  simp only [decide_eq_true_eq] at this
  exact this hx

/-- topological_sort from src/migrate/utils/dependency.py (lines 57-100).
remaining is initialised as set(tables), modelled as a duplicate-free list
over the same membership. -/
def topological_sort (tables : List String) (dependencies : DepGraph) :
    Except (List String) (List (List String)) :=
  topoLoop dependencies (initInDegree tables dependencies) tables.dedup []

/-- Dependency-ordering property of a level list: every table's dependencies
all lie among the tables placed in strictly earlier levels (placed collects
the flattened earlier levels, seeded with the tables placed before the list
starts). -/
def Placed (D : String → List String) : List String → List (List String) → Prop
  | _, [] => True
  | placed, lvl :: rest =>
      (∀ t ∈ lvl, ∀ d ∈ D t, d ∈ placed) ∧ Placed D (placed ++ lvl) rest

end Dependency

namespace Migrate

open HassMigrate

/-- MigrationConfig from src/migrate/models/table_metadata.py (lines 30-41).
The dataclass declares exactly these fields; in particular it declares no
max_chunk_size field. -/
structure MigrationConfig where
  batch_size : Int := 20000
  max_concurrent_tables : Int := 4
  progress_update_interval : Int := 10
  use_copy : Bool := true
  enable_transactions : Bool := true
  transaction_batch_size : Int := 10
  schema : String := "hass"
deriving DecidableEq

/-- Error messages accumulated by the migration service, modelled
structurally (the source interpolates the same data into f-strings). -/
inductive ErrMsg where
  | fallbackFailed (table : String) (e : PyError)
  | insertFailed (table : String) (e : PyError)
  | unexpected (table : String) (e : PyError)
  | taskFailed (table : String) (e : PyError)
deriving DecidableEq

/-- MigrationResult from src/migrate/models/table_metadata.py.  The
wall-clock duration field is not modelled. -/
structure MigrationResult where
  table : String
  rows_migrated : Nat
  success : Bool
  errors : List ErrMsg
deriving DecidableEq

/-- UNIQUE_CONSTRAINTS from src/migrate/services/migration_service.py
(lines 20-26), read with .get(table): tables with unique constraints mapped
to their constraint column groups. -/
def UNIQUE_CONSTRAINTS (table : String) : Option (List (List String)) :=
  if table = "event_types" then some [["event_type"]]
  else if table = "states_meta" then some [["entity_id"]]
  else if table = "statistics_meta" then some [["statistic_id"]]
  else if table = "statistics" then some [["metadata_id", "start_ts"]]
  else if table = "statistics_short_term" then some [["metadata_id", "start_ts"]]
  else Option.none

/-- Insert calls issued against the target connection, recorded so that the
fallback behaviour is observable: a bulk copy_records_to_table call or an
executemany call with the SQL text it was given. -/
inductive Attempt where
  | copy (table : String) (rows : List (List Value)) (columns : List String) (schema : String)
  | exec (sql : String) (rows : List (List Value))
deriving DecidableEq

/-- Failure environment for target-side calls: the exception a given insert
attempt raises, or Option.none when the call succeeds.  This models the
non-deterministic outcome of the network round trip. -/
abbrev InsertEnv := Attempt → Option PyError

/-- Double-quoted identifier as produced by the f-strings of the insert-SQL
builders. -/
def quoteIdent (s : String) : String := "\"" ++ s ++ "\""

/-- pg_columns of _insert_executemany: comma-joined quoted column names. -/
def pgColumnsStr (columns : List String) : String :=
  String.intercalate ", " (columns.map quoteIdent)

/-- placeholders of _insert_executemany: comma-joined $1, $2, ... -/
def placeholdersStr (columns : List String) : String :=
  String.intercalate ", " ((List.range columns.length).map (fun i => "$" ++ toString (i + 1)))

/-- The SQL built by _insert_executemany (migration_service.py lines
288-296): a parameterized multi-row INSERT, with ON CONFLICT DO NOTHING on
the first unique-constraint column group when the table has one (Python
truthiness: a missing entry and an empty list both take the plain branch). -/
def insertSql (schema table : String) (columns : List String)
    (unique_constraints : Option (List (List String))) : String :=
  let base := "INSERT INTO " ++ quoteIdent schema ++ "." ++ quoteIdent table ++
    " (" ++ pgColumnsStr columns ++ ") VALUES (" ++ placeholdersStr columns ++ ")"
  match unique_constraints with
  | some (conflict_cols :: _) =>
      base ++ " ON CONFLICT (" ++ pgColumnsStr conflict_cols ++ ") DO NOTHING"
  | _ => base

/-- MigrationService._insert_executemany (migration_service.py lines
263-299): requires a schema name, builds the parameterized insert SQL, runs
executemany on the whole cleaned batch and, when that call does not raise,
reports len(cleaned_batch) as the inserted count. -/
def _insert_executemany (env : InsertEnv) (table : String) (columns : List String)
    (cleaned_batch : List (List Value))
    (unique_constraints : Option (List (List String))) (schema : Option String) :
    Except PyError Nat :=
  match schema with
  | Option.none => .error .valueError
  | some schema =>
      let sql := insertSql schema table columns unique_constraints
      match env (.exec sql cleaned_batch) with
      | some e => .error e
      | Option.none => .ok cleaned_batch.length

/-- Outcome of the per-chunk insert block: the inserted count or the
RuntimeError it re-raises, the error messages appended to the table's error
list, and the insert attempts issued in order. -/
structure ChunkOutcome where
  result : Except PyError Nat
  errors : List ErrMsg
  attempts : List Attempt

/-- The per-chunk try/except block of MigrationService.migrate_table
(migration_service.py lines 153-205).  With use_copy, the primary attempt is
copy_records_to_table; if it raises, a warning is logged and the same
cleaned batch is retried with _insert_executemany in a fresh transaction; if
that also raises, the message is appended to errors and a RuntimeError is
raised.  Without use_copy, _insert_executemany is the primary attempt and
its failure is appended and re-raised directly. -/
def insertChunk (env : InsertEnv) (use_copy : Bool) (table : String)
    (columns : List String) (cleaned_batch : List (List Value))
    (unique_constraints : Option (List (List String))) (schema : String) :
    ChunkOutcome :=
  if use_copy then
    match env (.copy table cleaned_batch columns schema) with
    | Option.none =>
        { result := .ok cleaned_batch.length, errors := [],
          attempts := [.copy table cleaned_batch columns schema] }
    | some _primary_error =>
        match _insert_executemany env table columns cleaned_batch unique_constraints
            (some schema) with
        | .ok n =>
            { result := .ok n, errors := [],
              attempts := [.copy table cleaned_batch columns schema,
                .exec (insertSql schema table columns unique_constraints) cleaned_batch] }
        | .error fallback_error =>
            { result := .error .runtimeError,
              errors := [.fallbackFailed table fallback_error],
              attempts := [.copy table cleaned_batch columns schema,
                .exec (insertSql schema table columns unique_constraints) cleaned_batch] }
  else
    match _insert_executemany env table columns cleaned_batch unique_constraints
        (some schema) with
    | .ok n =>
        { result := .ok n, errors := [],
          attempts := [.exec (insertSql schema table columns unique_constraints) cleaned_batch] }
    | .error primary_error =>
        { result := .error .runtimeError,
          errors := [.insertFailed table primary_error],
          attempts := [.exec (insertSql schema table columns unique_constraints) cleaned_batch] }

/-- The chunk split of migrate_table (migration_service.py lines 139-142):
successive slices rows[i : i + m] for i in range(0, len(rows), m).  The
callers only invoke this with 0 < m (guarded by raw_chunk_size > 0); the
m = 0 branch is unreachable and returns []. -/
def chunksOf (m : Nat) : List α → List (List α)
  | [] => []
  | x :: xs =>
      if _h : m = 0 then []
      else (x :: xs).take m :: chunksOf m ((x :: xs).drop m)
termination_by xs => xs.length
decreasing_by
  simp only [List.length_drop, List.length_cons]
  omega

/-- Per-table progress dict value as written by migrate_table: keys last_id,
total and status (status strings: in_progress, completed, failed). -/
structure ProgressEntry where
  last_id : Option Value
  total : Nat
  status : String
deriving DecidableEq

/-- Cursor and running total threaded through the read/clean/insert loop of
migrate_table (the local variables last_id and total). -/
structure LoopState where
  last_id : Option Value
  total : Nat
deriving DecidableEq

/-- Failure escaping the migrate_table loop: the error messages appended so
far, the exception that propagates to the outer except clause, and the loop
state at the moment of failure (which the failing chunk has not advanced). -/
structure LoopFailure where
  errors : List ErrMsg
  exc : PyError
  state : LoopState

/-- The inner for-chunk loop of migrate_table (migration_service.py lines
147-217): each chunk is cleaned (an empty cleaned batch is skipped), then
inserted via the per-chunk block; on success the running total is advanced
by the reported count and the cursor becomes chunk[-1][pk_index]; on failure
the raised exception aborts the loop with the state unchanged by the failing
chunk.  A missing pk cell (chunk[-1][pk_index] out of range) raises
IndexError into the outer except clause. -/
def processChunks (env : InsertEnv) (use_copy : Bool) (table : String)
    (columns : List String) (unique_constraints : Option (List (List String)))
    (schema : String) (pk_index : Nat) :
    List (List (List Value)) → LoopState → Except LoopFailure LoopState
  | [], st => .ok st
  | chunk :: rest, st =>
      match clean_batch_values table columns chunk with
      | .error e => .error { errors := [], exc := e, state := st }
      | .ok (cleaned_batch, _warns) =>
          if cleaned_batch = [] then
            processChunks env use_copy table columns unique_constraints schema pk_index
              rest st
          else
            let oc := insertChunk env use_copy table columns cleaned_batch
              unique_constraints schema
            match oc.result with
            | .error e => .error { errors := oc.errors, exc := e, state := st }
            | .ok inserted_count =>
                match chunk.getLast? with
                | Option.none =>
                    .error { errors := oc.errors, exc := .indexError, state := st }
                | some lastRow =>
                    match lastRow.get? pk_index with
                    | Option.none =>
                        .error { errors := oc.errors, exc := .indexError, state := st }
                    | some lid =>
                        processChunks env use_copy table columns unique_constraints
                          schema pk_index rest
                          { last_id := some lid, total := st.total + inserted_count }

/-- The while loop of migrate_table (migration_service.py lines 119-219):
batches models the successive return values of fetch_batch_with_resume; an
empty batch breaks the loop.  Each batch is split into chunks of
max_chunk_size rows when getattr(config, "max_chunk_size", None) is a
positive int (MigrationConfig declares no such field, so an instance built
by the dataclass constructor always yields Option.none here and the batch is
never split). -/
def migrateLoop (env : InsertEnv) (use_copy : Bool) (table : String)
    (columns : List String) (unique_constraints : Option (List (List String)))
    (schema : String) (pk_index : Nat) (max_chunk_attr : Option Int) :
    List (List (List Value)) → LoopState → Except LoopFailure LoopState
  | [], st => .ok st
  | rows :: more, st =>
      if rows = [] then .ok st
      else
        let raw_chunk_size := max_chunk_attr
        let max_chunk_size : Nat :=
          match raw_chunk_size with
          | some n => if 0 < n then n.toNat else rows.length
          | Option.none => rows.length
        let chunks :=
          if rows.length > max_chunk_size then chunksOf max_chunk_size rows else [rows]
        match processChunks env use_copy table columns unique_constraints schema
            pk_index chunks st with
        | .error f => .error f
        | .ok st2 =>
            migrateLoop env use_copy table columns unique_constraints schema pk_index
              max_chunk_attr more st2

/-- MigrationService.migrate_table (migration_service.py lines 72-261).
pk_col = columns[0] raises IndexError outside the try block when columns is
empty.  The resume cursor and running total are read from the table's
progress entry; setdefault keeps a pre-existing entry.  On normal loop exit
the entry's status becomes completed and a successful MigrationResult is
returned; any exception inside the try is caught, the unexpected-error
message appended, the entry's status set to failed with the last committed
cursor and total retained, and a failed MigrationResult carrying the rows
migrated so far is returned.  The connection pool and progress tracker
logging are abstracted away; env supplies insert outcomes. -/
def migrate_table (env : InsertEnv) (table : String) (columns : List String)
    (config : MigrationConfig) (max_chunk_attr : Option Int)
    (batches : List (List (List Value))) (progress0 : Option ProgressEntry) :
    Except PyError (MigrationResult × ProgressEntry) :=
  match columns with
  | [] => .error .indexError
  | pk_col :: restCols =>
      let cols := pk_col :: restCols
      let last_id := (progress0.map (fun e => e.last_id)).getD Option.none
      let total_migrated := (progress0.map (fun e => e.total)).getD 0
      let unique_constraints := UNIQUE_CONSTRAINTS table
      let pk_index := if pk_col ∈ cols then cols.indexOf pk_col else 0
      match migrateLoop env config.use_copy table cols unique_constraints config.schema
          pk_index max_chunk_attr batches
          { last_id := last_id, total := total_migrated } with
      | .ok st =>
          .ok ({ table := table, rows_migrated := st.total, success := true, errors := [] },
               { last_id := st.last_id, total := st.total, status := "completed" })
      | .error f =>
          .ok ({ table := table, rows_migrated := f.state.total, success := false,
                 errors := f.errors ++ [.unexpected table f.exc] },
               { last_id := f.state.last_id, total := f.state.total, status := "failed" })

/-- Shared progress dict of the service, modelled as an association list
read through List.lookup; update prepends the fresh binding. -/
def progressUpdate (progress : List (String × ProgressEntry)) (table : String)
    (entry : ProgressEntry) : List (String × ProgressEntry) :=
  (table, entry) :: progress.filter (fun p => p.1 ≠ table)

/-- The run_table wrapper inside migrate_all_tables (migration_service.py
lines 338-375): migrate_table is awaited under the semaphore; if it raises,
the failure is converted into a failed MigrationResult whose row count is
the total snapshotted from the table's progress entry. -/
def run_table (env : InsertEnv) (table : String) (columns : List String)
    (config : MigrationConfig) (max_chunk_attr : Option Int)
    (batches : List (List (List Value)))
    (progress : List (String × ProgressEntry)) :
    MigrationResult × List (String × ProgressEntry) :=
  match migrate_table env table columns config max_chunk_attr batches
      (progress.lookup table) with
  | .ok (res, entry) => (res, progressUpdate progress table entry)
  | .error e =>
      let partial_rows := ((progress.lookup table).map (fun p => p.total)).getD 0
      ({ table := table, rows_migrated := partial_rows, success := false,
         errors := [.taskFailed table e] }, progress)

/-- One dependency level of migrate_all_tables (migration_service.py lines
377-392): for each table of the level, the columns are looked up in
all_tables (first match, as next(...) does); a table without columns is
skipped with a warning; otherwise its migration runs and its result is
collected.  Tasks of one level run concurrently under the semaphore but
touch only their own progress key, so the level is modelled as the
sequential composition in task-creation order, which is also the order
asyncio.gather reports results in. -/
def runLevel (env : String → InsertEnv) (all_tables : List (String × List String))
    (config : MigrationConfig) (max_chunk_attr : Option Int)
    (sources : String → List (List (List Value))) :
    List String → List MigrationResult × List (String × ProgressEntry) →
    List MigrationResult × List (String × ProgressEntry)
  | [], acc => acc
  | t :: ts, (results, progress) =>
      match all_tables.lookup t with
      | Option.none =>
          runLevel env all_tables config max_chunk_attr sources ts (results, progress)
      | some cols =>
          let rp := run_table (env t) t cols config max_chunk_attr (sources t) progress
          runLevel env all_tables config max_chunk_attr sources ts
            (results ++ [rp.1], rp.2)

/-- The level loop of migrate_all_tables: levels are processed strictly in
order, each level finishing (asyncio.gather) before the next begins. -/
def runLevels (env : String → InsertEnv) (all_tables : List (String × List String))
    (config : MigrationConfig) (max_chunk_attr : Option Int)
    (sources : String → List (List (List Value))) :
    List (List String) → List MigrationResult × List (String × ProgressEntry) →
    List MigrationResult × List (String × ProgressEntry)
  | [], acc => acc
  | level :: more, acc =>
      runLevels env all_tables config max_chunk_attr sources more
        (runLevel env all_tables config max_chunk_attr sources level acc)

/-- MigrationService.migrate_all_tables (migration_service.py lines
301-394): dependencies are analysed (deps models the introspection result),
the tables are ordered by topological_sort (whose ValueError on a stuck
graph propagates out), and the levels are migrated in order, collecting one
MigrationResult per level table whose columns are found. -/
def migrate_all_tables (env : String → InsertEnv)
    (all_tables : List (String × List String)) (config : MigrationConfig)
    (max_chunk_attr : Option Int) (sources : String → List (List (List Value)))
    (deps : Dependency.DepGraph) (progress0 : List (String × ProgressEntry)) :
    Except (List String) (List MigrationResult × List (String × ProgressEntry)) :=
  let table_names := all_tables.map Prod.fst
  match Dependency.topological_sort table_names deps with
  | .error stuck => .error stuck
  | .ok table_levels =>
      .ok (runLevels env all_tables config max_chunk_attr sources table_levels
        ([], progress0))

end Migrate

namespace Target

open HassMigrate

/-- Conflict key of a row for an ON CONFLICT column group: the tuple of
values the row carries in the constraint's columns (positions resolved
through the insert's column list). -/
def keyOf (columns conflict_cols : List String) (row : List Value) :
    List (Option Value) :=
  conflict_cols.map (fun c => (columns.indexOf? c).bind (fun i => row.get? i))

/-- Semantics of executing a parameterized INSERT ... ON CONFLICT (...) DO
NOTHING statement for each row of a batch against a target table holding
the given rows: a row whose conflict key is already present (including keys
introduced by earlier rows of the same batch) is silently skipped.  Returns
the table contents afterwards and the number of rows actually added. -/
def insertSkip (key : List Value → List (Option Value))
    (db : List (List Value)) : List (List Value) → List (List Value) × Nat
  | [] => (db, 0)
  | r :: rs =>
      if key r ∈ db.map key then insertSkip key db rs
      else
        let p := insertSkip key (db ++ [r]) rs
        (p.1, p.2 + 1)

end Target

namespace Engine

open HassMigrate

/-- Migrator._insert_rows_individually (engine.py lines 384-413): each row
of the cleaned batch is inserted on its own; rows whose insert raises are
skipped with a warning and the function returns the number of rows whose
insert succeeded.  The per-row outcome of the target call is supplied by the
rowOk oracle. -/
def _insert_rows_individually (rowOk : List Value → Bool)
    (cleaned_batch : List (List Value)) : Nat :=
  (cleaned_batch.filter rowOk).length

/-- The attempt loop of Migrator._insert_batch_with_retry, iterating
attempt over range(max_retries) with max_retries = 3: a successful
executemany immediately reports len(cleaned_batch) (the source comments
that with ON CONFLICT DO NOTHING the exact count is unknowable and the
batch size is reported); on the last attempt's failure it falls back to
row-by-row insertion; the unreachable loop exit returns 0. -/
def retryGo (execOk : Nat → Bool) (rowOk : List Value → Bool)
    (cleaned_batch : List (List Value)) : List Nat → Nat
  | [] => 0
  | attempt :: rest =>
      if execOk attempt then cleaned_batch.length
      else if rest = [] then _insert_rows_individually rowOk cleaned_batch
      else retryGo execOk rowOk cleaned_batch rest

/-- Migrator._insert_batch_with_retry (engine.py lines 415-449), with the
outcome of each executemany attempt and of each per-row insert supplied by
oracles. -/
def _insert_batch_with_retry (execOk : Nat → Bool) (rowOk : List Value → Bool)
    (cleaned_batch : List (List Value)) : Nat :=
  retryGo execOk rowOk cleaned_batch [0, 1, 2]

end Engine

namespace Sched

/-- Scheduler state for one run of migrate_all_tables: the per-table
migrations that already finished, those currently in flight (i.e. executing
inside the semaphore in the migrate implementation), the tasks of the
current level that have not started migrating yet, the levels not yet
begun, and the free semaphore permits. -/
structure State where
  completed : List String
  running : List String
  pending : List String
  future : List (List String)
  permits : Nat
deriving DecidableEq

/-- Initial scheduler state: no level begun, all permits free. -/
def State.init (levels : List (List String)) (cap : Nat) : State :=
  { completed := [], running := [], pending := [], future := levels, permits := cap }

/-- Scheduling steps of migrate_all_tables in
src/migrate/services/migration_service.py (lines 328-392): a task of the
current level may start migrating only by acquiring a permit of the
asyncio.Semaphore(max(1, max_concurrent)); a running migration may finish
(successfully or not), releasing its permit; the next level is entered only
when the current level's tasks have all started and finished, which is what
awaiting asyncio.gather over the level enforces. -/
inductive Step : State → State → Prop where
  | start (s : State) (t : String) (p : List String) (k : Nat) :
      s.pending = t :: p → s.permits = k + 1 →
      Step s { s with pending := p, running := t :: s.running, permits := k }
  | finish (s : State) (t : String) (r1 r2 : List String) :
      s.running = r1 ++ t :: r2 →
      Step s
        { s with running := r1 ++ r2, completed := t :: s.completed, permits := s.permits + 1 }
  | nextLevel (s : State) (lvl : List String) (fs : List (List String)) :
      s.pending = [] → s.running = [] → s.future = lvl :: fs →
      Step s { s with pending := lvl, future := fs }

/-- States the migrate scheduler can reach from the initial state. -/
inductive Reachable (levels : List (List String)) (cap : Nat) : State → Prop where
  | init : Reachable levels cap (State.init levels cap)
  | step {s s' : State} : Reachable levels cap s → Step s s' → Reachable levels cap s'

/-- Scheduling steps of migrate_all_tables in
src/hass_migrate/services/migration_service.py (lines 264-299): the level's
coroutines are handed to asyncio.gather with no semaphore or pool bound, so
a task may start whenever its level is current; levels are still strictly
sequenced by awaiting the gather. -/
inductive HStep : State → State → Prop where
  | start (s : State) (t : String) (p : List String) :
      s.pending = t :: p →
      HStep s { s with pending := p, running := t :: s.running }
  | finish (s : State) (t : String) (r1 r2 : List String) :
      s.running = r1 ++ t :: r2 →
      HStep s { s with running := r1 ++ r2, completed := t :: s.completed }
  | nextLevel (s : State) (lvl : List String) (fs : List (List String)) :
      s.pending = [] → s.running = [] → s.future = lvl :: fs →
      HStep s { s with pending := lvl, future := fs }

/-- States the hass_migrate scheduler can reach. -/
inductive HReachable (levels : List (List String)) : State → Prop where
  | init : HReachable levels (State.init levels 0)
  | step {s s' : State} : HReachable levels s → HStep s s' → HReachable levels s'

/-- Capacity of the semaphore created by the migrate implementation:
max_concurrent = getattr(config, "max_concurrent_tables", 1) or 1 (Python
or-coalescing maps 0 to 1), then asyncio.Semaphore(max(1, max_concurrent)). -/
def semaphoreCapacity (config : Migrate.MigrationConfig) : Nat :=
  let max_concurrent : Int :=
    if config.max_concurrent_tables = 0 then 1 else config.max_concurrent_tables
  (max 1 max_concurrent).toNat

/-- Inductive invariant of the migrate scheduler: the in-flight migrations
and the free permits always account for the whole semaphore, and the level
structure decomposes into fully completed past levels, an optional current
level confining every pending or running task, and the untouched future
levels. -/
def Inv (levels : List (List String)) (cap : Nat) (s : State) : Prop :=
  s.running.length + s.permits = cap ∧
  ((s.pending = [] ∧ s.running = [] ∧
      ∃ past, levels = past ++ s.future ∧ ∀ lvl ∈ past, ∀ t ∈ lvl, t ∈ s.completed) ∨
    (∃ past cur, levels = past ++ cur :: s.future ∧
      (∀ lvl ∈ past, ∀ t ∈ lvl, t ∈ s.completed) ∧
      (∀ t ∈ s.pending, t ∈ cur) ∧ (∀ t ∈ s.running, t ∈ cur) ∧
      (∀ t ∈ cur, t ∈ s.pending ∨ t ∈ s.running ∨ t ∈ s.completed)))

end Sched

open HassMigrate

/-! Theorems.  Helper lemmas come first, then one theorem per claim (with a
witness where the theorem carries hypotheses). -/

/-- Helper: datetime.fromtimestamp only ever raises ValueError or
OverflowError in the model (OSError is caught alongside them by the
hass_migrate cleaner). -/
theorem fromtimestamp_cases (x : PyFloat) :
    (∃ d, fromtimestamp x = .ok d) ∨ fromtimestamp x = .error .valueError ∨
      fromtimestamp x = .error .overflowError := by
  cases x with
  | finite u =>
      simp only [fromtimestamp]
      split
      · exact .inl ⟨_, rfl⟩
      · exact .inr (.inl rfl)
  | inf => exact .inr (.inr rfl)
  | negInf => exact .inr (.inr rfl)
  | nan => exact .inr (.inl rfl)

/-- Helper: a nonempty NUL-free string is a fixed point of the cleaner. -/
theorem clean_value_str_fix (t c : String) (s : List Char) (hne : s ≠ [])
    (hnul : nulChar ∉ s) : clean_value t c (.str s) = .ok (.str s, []) := by
  simp only [clean_value, if_neg hnul]
  rw [if_neg hne]

/-- Helper: a naive datetime is a fixed point of the cleaner. -/
theorem clean_value_naive_fix (t c : String) (u : Int) :
    clean_value t c (.datetime { usec := u, tzoffset := Option.none }) =
      .ok (.datetime { usec := u, tzoffset := Option.none }, []) := by
  by_cases hb : (t, c) ∈ BOOL_COLUMNS <;> simp [clean_value, hb]

/-- Helper: the hass_migrate cleaner never raises: its timestamp-conversion
except clause covers every exception fromtimestamp can produce. -/
theorem clean_value_isOk (t c : String) (v : Value) :
    ∃ r, clean_value t c v = .ok r := by
  cases v with
  | none => exact ⟨_, rfl⟩
  | str s =>
      simp only [clean_value]
      split <;> split <;> exact ⟨_, rfl⟩
  | datetime d =>
      by_cases hb : (t, c) ∈ BOOL_COLUMNS
      · simp [clean_value, hb]
      · simp only [clean_value, hb, if_false]
        cases d.tzoffset <;> simp
  | bool b =>
      by_cases hb : (t, c) ∈ BOOL_COLUMNS
      · simp [clean_value, hb]
      · simp only [clean_value, hb, if_false]
        split
        · rcases fromtimestamp_cases (Value.toPyFloat (.bool b)) with ⟨d, hd⟩ | hd | hd <;>
            rw [hd] <;> exact ⟨_, rfl⟩
        · exact ⟨_, rfl⟩
  | int n =>
      by_cases hb : (t, c) ∈ BOOL_COLUMNS
      · by_cases h01 : n = 0 ∨ n = 1 <;> simp [clean_value, hb, h01]
      · simp only [clean_value, hb, if_false]
        split
        · rcases fromtimestamp_cases (Value.toPyFloat (.int n)) with ⟨d, hd⟩ | hd | hd <;>
            rw [hd] <;> exact ⟨_, rfl⟩
        · exact ⟨_, rfl⟩
  | float f =>
      by_cases hb : (t, c) ∈ BOOL_COLUMNS
      · simp [clean_value, hb]
      · simp only [clean_value, hb, if_false]
        split
        · rcases fromtimestamp_cases (Value.toPyFloat (.float f)) with ⟨d, hd⟩ | hd | hd <;>
            rw [hd] <;> exact ⟨_, rfl⟩
        · exact ⟨_, rfl⟩
  | bytes bs =>
      by_cases hb : (t, c) ∈ BOOL_COLUMNS
      · simp [clean_value, hb]
      · simp [clean_value, hb, Value.isNumeric]

/-- C5: for every (table, column) pair in the boolean allow-list, cleaning
integer 0 yields boolean false and integer 1 yields boolean true with no
warning; a boolean input is returned unchanged; and any other integer (for
example 5) is returned unchanged with a warning logged instead of being
coerced. -/
theorem clean_value_bool_allowlist (t c : String) (h : (t, c) ∈ BOOL_COLUMNS) :
    clean_value t c (.int 0) = .ok (.bool false, []) ∧
    clean_value t c (.int 1) = .ok (.bool true, []) ∧
    (∀ b : Bool, clean_value t c (.bool b) = .ok (.bool b, [])) ∧
    (∀ n : Int, n ≠ 0 → n ≠ 1 →
      clean_value t c (.int n) = .ok (.int n, [.nonBooleanInt t c n])) := by
  refine ⟨?_, ?_, ?_, ?_⟩
  · simp [clean_value, h]
  · simp [clean_value, h]
  · intro b; simp [clean_value, h]
  · intro n h0 h1; simp [clean_value, h, h0, h1]

/-- Witness for C5 at (recorder_runs, closed_incorrect) with the non-boolean
integer 5. -/
theorem clean_value_bool_allowlist_witness :
    ("recorder_runs", "closed_incorrect") ∈ BOOL_COLUMNS ∧
    (clean_value "recorder_runs" "closed_incorrect" (.int 0) = .ok (.bool false, []) ∧
     clean_value "recorder_runs" "closed_incorrect" (.int 1) = .ok (.bool true, []) ∧
     (∀ b : Bool, clean_value "recorder_runs" "closed_incorrect" (.bool b) =
        .ok (.bool b, [])) ∧
     (∀ n : Int, n ≠ 0 → n ≠ 1 →
        clean_value "recorder_runs" "closed_incorrect" (.int n) =
          .ok (.int n, [.nonBooleanInt "recorder_runs" "closed_incorrect" n]))) :=
  ⟨by decide, clean_value_bool_allowlist "recorder_runs" "closed_incorrect" (by decide)⟩

/-- C9: for every string input, the cleaner returns exactly the input with
its NUL characters removed (null when nothing remains), and the result
contains no NUL character. -/
theorem clean_value_strips_nul (t c : String) (s : List Char) :
    clean_value t c (.str s) =
      .ok ((if s.filter (fun ch => ch ≠ nulChar) = [] then Value.none
            else Value.str (s.filter (fun ch => ch ≠ nulChar))), []) ∧
    nulChar ∉ s.filter (fun ch => ch ≠ nulChar) := by
  constructor
  · by_cases hmem : nulChar ∈ s
    · simp only [clean_value, if_pos hmem]
      split
      · rename_i hc; rfl
      · rename_i hc; rfl
    · have hflt : s.filter (fun ch => ch ≠ nulChar) = s :=
        List.filter_eq_self.mpr (fun a ha => by
          simp only [ne_eq, decide_eq_true_eq]
          exact fun heq => hmem (heq ▸ ha))
      simp only [clean_value, if_neg hmem, hflt]
      split
      · rename_i hc; rfl
      · rename_i hc; rfl
  · simp [List.mem_filter]

/-- C6: cleaning is idempotent: every value produced by the cleaner is a
fixed point of cleaning under the same table and column (warnings may be
re-emitted, the value is unchanged). -/
theorem clean_value_idempotent (t c : String) (v w : Value) (ws : List Warning)
    (h : clean_value t c v = .ok (w, ws)) :
    ∃ ws2, clean_value t c w = .ok (w, ws2) := by
  cases v with
  | none =>
      simp only [clean_value, Except.ok.injEq, Prod.mk.injEq] at h
      obtain ⟨rfl, -⟩ := h
      exact ⟨[], rfl⟩
  | str s =>
      simp only [clean_value] at h
      split at h
      · rename_i hmem
        split at h <;> rename_i hc <;>
          simp only [Except.ok.injEq, Prod.mk.injEq] at h
        · obtain ⟨rfl, -⟩ := h; exact ⟨[], rfl⟩
        · obtain ⟨rfl, -⟩ := h
          refine ⟨[], clean_value_str_fix t c _ hc ?_⟩
          simp [List.mem_filter]
      · rename_i hmem
        split at h <;> rename_i hc <;>
          simp only [Except.ok.injEq, Prod.mk.injEq] at h
        · obtain ⟨rfl, -⟩ := h; exact ⟨[], rfl⟩
        · obtain ⟨rfl, -⟩ := h
          exact ⟨[], clean_value_str_fix t c _ hc hmem⟩
  | bool b =>
      by_cases hb : (t, c) ∈ BOOL_COLUMNS
      · simp only [clean_value, if_pos hb, Except.ok.injEq, Prod.mk.injEq] at h
        obtain ⟨rfl, -⟩ := h
        exact ⟨[], by simp [clean_value, hb]⟩
      · simp only [clean_value, if_neg hb] at h
        split at h
        · rename_i hts
          cases b <;>
            simp only [Value.toPyFloat, fromtimestamp, minTimestampUsec,
              maxTimestampUsec, Except.ok.injEq, Prod.mk.injEq] at h <;>
          · rw [if_pos (by decide)] at h
            simp only [Except.ok.injEq, Prod.mk.injEq] at h
            obtain ⟨rfl, -⟩ := h
            exact ⟨[], clean_value_naive_fix t c _⟩
        · rename_i hts
          simp only [Except.ok.injEq, Prod.mk.injEq] at h
          obtain ⟨rfl, -⟩ := h
          refine ⟨[], ?_⟩
          simp only [clean_value, if_neg hb]
          rw [if_neg hts]
  | int n =>
      by_cases hb : (t, c) ∈ BOOL_COLUMNS
      · simp only [clean_value, if_pos hb] at h
        split at h <;> rename_i h01 <;>
          simp only [Except.ok.injEq, Prod.mk.injEq] at h <;> obtain ⟨rfl, -⟩ := h
        · exact ⟨[], by simp [clean_value, hb]⟩
        · exact ⟨[.nonBooleanInt t c n], by
            simp only [clean_value, if_pos hb]
            rw [if_neg h01]⟩
      · simp only [clean_value, if_neg hb] at h
        split at h
        · rename_i hts
          cases hft : fromtimestamp (Value.toPyFloat (.int n)) with
          | ok d =>
              rw [hft] at h
              simp only [Except.ok.injEq, Prod.mk.injEq] at h
              obtain ⟨rfl, -⟩ := h
              exact ⟨[], clean_value_naive_fix t c _⟩
          | error e =>
              rw [hft] at h
              cases e with
              | valueError =>
                  simp only [Except.ok.injEq, Prod.mk.injEq] at h
                  obtain ⟨rfl, -⟩ := h
                  refine ⟨[.invalidTimestamp t c (.int n) .valueError], ?_⟩
                  simp only [clean_value, if_neg hb]
                  rw [if_pos hts, hft]
              | osError =>
                  simp only [Except.ok.injEq, Prod.mk.injEq] at h
                  obtain ⟨rfl, -⟩ := h
                  refine ⟨[.invalidTimestamp t c (.int n) .osError], ?_⟩
                  simp only [clean_value, if_neg hb]
                  rw [if_pos hts, hft]
              | overflowError =>
                  simp only [Except.ok.injEq, Prod.mk.injEq] at h
                  obtain ⟨rfl, -⟩ := h
                  refine ⟨[.invalidTimestamp t c (.int n) .overflowError], ?_⟩
                  simp only [clean_value, if_neg hb]
                  rw [if_pos hts, hft]
              | indexError => exact absurd h (by simp)
              | runtimeError => exact absurd h (by simp)
        · rename_i hts
          simp only [Except.ok.injEq, Prod.mk.injEq] at h
          obtain ⟨rfl, -⟩ := h
          refine ⟨[], ?_⟩
          simp only [clean_value, if_neg hb]
          rw [if_neg hts]
  | float f =>
      by_cases hb : (t, c) ∈ BOOL_COLUMNS
      · simp only [clean_value, if_pos hb, Except.ok.injEq, Prod.mk.injEq] at h
        obtain ⟨rfl, -⟩ := h
        exact ⟨[], by simp [clean_value, hb]⟩
      · simp only [clean_value, if_neg hb] at h
        split at h
        · rename_i hts
          cases hft : fromtimestamp (Value.toPyFloat (.float f)) with
          | ok d =>
              rw [hft] at h
              simp only [Except.ok.injEq, Prod.mk.injEq] at h
              obtain ⟨rfl, -⟩ := h
              exact ⟨[], clean_value_naive_fix t c _⟩
          | error e =>
              rw [hft] at h
              cases e with
              | valueError =>
                  simp only [Except.ok.injEq, Prod.mk.injEq] at h
                  obtain ⟨rfl, -⟩ := h
                  refine ⟨[.invalidTimestamp t c (.float f) .valueError], ?_⟩
                  simp only [clean_value, if_neg hb]
                  rw [if_pos hts, hft]
              | osError =>
                  simp only [Except.ok.injEq, Prod.mk.injEq] at h
                  obtain ⟨rfl, -⟩ := h
                  refine ⟨[.invalidTimestamp t c (.float f) .osError], ?_⟩
                  simp only [clean_value, if_neg hb]
                  rw [if_pos hts, hft]
              | overflowError =>
                  simp only [Except.ok.injEq, Prod.mk.injEq] at h
                  obtain ⟨rfl, -⟩ := h
                  refine ⟨[.invalidTimestamp t c (.float f) .overflowError], ?_⟩
                  simp only [clean_value, if_neg hb]
                  rw [if_pos hts, hft]
              | indexError => exact absurd h (by simp)
              | runtimeError => exact absurd h (by simp)
        · rename_i hts
          simp only [Except.ok.injEq, Prod.mk.injEq] at h
          obtain ⟨rfl, -⟩ := h
          refine ⟨[], ?_⟩
          simp only [clean_value, if_neg hb]
          rw [if_neg hts]
  | datetime d =>
      by_cases hb : (t, c) ∈ BOOL_COLUMNS
      · simp only [clean_value, if_pos hb, Except.ok.injEq, Prod.mk.injEq] at h
        obtain ⟨rfl, -⟩ := h
        exact ⟨[], by simp [clean_value, hb]⟩
      · simp only [clean_value, if_neg hb] at h
        cases hoff : d.tzoffset with
        | none =>
            rw [hoff] at h
            simp only [Except.ok.injEq, Prod.mk.injEq] at h
            obtain ⟨rfl, -⟩ := h
            refine ⟨[], ?_⟩
            simp only [clean_value, if_neg hb]
            rw [hoff]
        | some off =>
            rw [hoff] at h
            simp only [Except.ok.injEq, Prod.mk.injEq] at h
            obtain ⟨rfl, -⟩ := h
            exact ⟨[], clean_value_naive_fix t c _⟩
  | bytes bs =>
      by_cases hb : (t, c) ∈ BOOL_COLUMNS
      · simp only [clean_value, if_pos hb, Except.ok.injEq, Prod.mk.injEq] at h
        obtain ⟨rfl, -⟩ := h
        exact ⟨[], by simp [clean_value, hb]⟩
      · simp only [clean_value, if_neg hb, Value.isNumeric] at h
        rw [if_neg (by simp)] at h
        simp only [Except.ok.injEq, Prod.mk.injEq] at h
        obtain ⟨rfl, -⟩ := h
        refine ⟨[], ?_⟩
        simp only [clean_value, if_neg hb, Value.isNumeric]
        rw [if_neg (by simp)]

/-- Witness for C6 at (recorder_runs, closed_incorrect) and the non-boolean
integer 5, whose cleaning passes it through with a warning. -/
theorem clean_value_idempotent_witness :
    clean_value "recorder_runs" "closed_incorrect" (.int 5) =
      .ok (.int 5, [.nonBooleanInt "recorder_runs" "closed_incorrect" 5]) ∧
    ∃ ws2, clean_value "recorder_runs" "closed_incorrect" (.int 5) =
      .ok (.int 5, ws2) :=
  ⟨rfl, clean_value_idempotent "recorder_runs" "closed_incorrect" (.int 5) (.int 5)
    [.nonBooleanInt "recorder_runs" "closed_incorrect" 5] rfl⟩

/-- C7: the hass_migrate cleaner is total (its except clause covers every
exception the timestamp conversion can raise, so a failed conversion is
logged and the numeric value passed through, as the evaluation at float
infinity on the allow-listed events.time_fired column shows); the engine.py
copy of the cleaner, whose except clause omits OverflowError, instead
propagates the OverflowError raised for float infinity. -/
theorem clean_value_total_and_engine_overflow :
    (∀ t c v, ∃ r, clean_value t c v = .ok r) ∧
    clean_value "events" "time_fired" (.float .inf) =
      .ok (.float .inf,
        [.invalidTimestamp "events" "time_fired" (.float .inf) .overflowError]) ∧
    Engine.clean_value "events" "time_fired" (.float .inf) =
      .error .overflowError :=
  ⟨clean_value_isOk, rfl, rfl⟩

open Migrate in
/-- C1: with the bulk-copy strategy enabled, a chunk whose copy attempt
fails is retried with the parameterized multi-row insert on exactly the same
cleaned batch; when the table has a unique-constraint column set the
fallback SQL carries the ON CONFLICT ... DO NOTHING clause for it; and the
chunk's error propagates (the re-raised RuntimeError that fails the table)
precisely when the fallback insert also fails. -/
theorem chunk_copy_fallback (env : InsertEnv) (table schema : String)
    (columns : List String) (cleaned_batch : List (List Value)) (e : PyError)
    (hcopy : env (.copy table cleaned_batch columns schema) = some e) :
    (insertChunk env true table columns cleaned_batch
        (UNIQUE_CONSTRAINTS table) schema).attempts =
      [.copy table cleaned_batch columns schema,
       .exec (insertSql schema table columns (UNIQUE_CONSTRAINTS table)) cleaned_batch] ∧
    (∀ cs rest, UNIQUE_CONSTRAINTS table = some (cs :: rest) →
      ∃ base, insertSql schema table columns (UNIQUE_CONSTRAINTS table) =
        base ++ " ON CONFLICT (" ++ pgColumnsStr cs ++ ") DO NOTHING") ∧
    ((∃ n, (insertChunk env true table columns cleaned_batch
        (UNIQUE_CONSTRAINTS table) schema).result = .ok n) ↔
      env (.exec (insertSql schema table columns (UNIQUE_CONSTRAINTS table))
        cleaned_batch) = Option.none) := by
  refine ⟨?_, ?_, ?_⟩
  · cases henv : env (.exec (insertSql schema table columns (UNIQUE_CONSTRAINTS table))
        cleaned_batch) <;>
      simp [insertChunk, _insert_executemany, hcopy, henv]
  · intro cs rest h
    rw [h]
    exact ⟨_, rfl⟩
  · cases henv : env (.exec (insertSql schema table columns (UNIQUE_CONSTRAINTS table))
        cleaned_batch) <;>
      simp [insertChunk, _insert_executemany, hcopy, henv]

open Migrate in
/-- Witness for C1: on event_types (whose unique constraint is event_type)
with an environment whose copy call raises and whose executemany succeeds. -/
theorem chunk_copy_fallback_witness :
    (fun a => match a with
      | Attempt.copy _ _ _ _ => some PyError.osError
      | Attempt.exec _ _ => Option.none)
        (Attempt.copy "event_types" [[Value.int 1]] ["event_type"] "hass") =
      some PyError.osError ∧
    ((insertChunk (fun a => match a with
        | Attempt.copy _ _ _ _ => some PyError.osError
        | Attempt.exec _ _ => Option.none) true "event_types" ["event_type"]
        [[Value.int 1]] (UNIQUE_CONSTRAINTS "event_types") "hass").attempts =
      [.copy "event_types" [[Value.int 1]] ["event_type"] "hass",
       .exec (insertSql "hass" "event_types" ["event_type"]
         (UNIQUE_CONSTRAINTS "event_types")) [[Value.int 1]]] ∧
    (∀ cs rest, UNIQUE_CONSTRAINTS "event_types" = some (cs :: rest) →
      ∃ base, insertSql "hass" "event_types" ["event_type"]
          (UNIQUE_CONSTRAINTS "event_types") =
        base ++ " ON CONFLICT (" ++ pgColumnsStr cs ++ ") DO NOTHING") ∧
    ((∃ n, (insertChunk (fun a => match a with
        | Attempt.copy _ _ _ _ => some PyError.osError
        | Attempt.exec _ _ => Option.none) true "event_types" ["event_type"]
        [[Value.int 1]] (UNIQUE_CONSTRAINTS "event_types") "hass").result = .ok n) ↔
      (fun a => match a with
        | Attempt.copy _ _ _ _ => some PyError.osError
        | Attempt.exec _ _ => Option.none)
        (Attempt.exec (insertSql "hass" "event_types" ["event_type"]
          (UNIQUE_CONSTRAINTS "event_types")) [[Value.int 1]]) = Option.none)) :=
  ⟨rfl, chunk_copy_fallback _ "event_types" "hass" ["event_type"] [[Value.int 1]]
    PyError.osError rfl⟩

/-- Helper: the ON CONFLICT DO NOTHING semantics never adds more rows than
the batch submits. -/
theorem insertSkip_le (key : List Value → List (Option Value))
    (db rows : List (List Value)) :
    (Target.insertSkip key db rows).2 ≤ rows.length := by
  induction rows generalizing db with
  | nil => simp [Target.insertSkip]
  | cons r rs ih =>
      simp only [Target.insertSkip]
      split
      · exact le_trans (ih db) (by simp)
      · simpa using Nat.succ_le_succ (ih (db ++ [r]))

/-- Helper: a batch containing a row whose conflict key is already present
in the target adds strictly fewer rows than it submits. -/
theorem insertSkip_lt (key : List Value → List (Option Value))
    (db rows : List (List Value)) (h : ∃ r ∈ rows, key r ∈ db.map key) :
    (Target.insertSkip key db rows).2 < rows.length := by
  induction rows generalizing db with
  | nil => simp at h
  | cons r rs ih =>
      obtain ⟨x, hx, hkey⟩ := h
      simp only [Target.insertSkip]
      split
      · exact lt_of_le_of_lt (insertSkip_le key db rs) (by simp)
      · rename_i hr
        have hxrs : x ∈ rs := by
          rcases List.mem_cons.mp hx with rfl | hxs
          · exact absurd hkey hr
          · exact hxs
        have hkey2 : key x ∈ (db ++ [r]).map key := by
          rw [List.map_append]
          exact List.mem_append_left _ hkey
        have := ih (db ++ [r]) ⟨x, hxrs, hkey2⟩
        simpa using Nat.succ_lt_succ this

/-- C10: the fallback insert paths report the number of rows submitted, not
the number actually inserted.  _insert_executemany returns len(cleaned_batch)
whenever executemany does not raise; under ON CONFLICT DO NOTHING semantics
the rows actually added never exceed, and in the presence of a conflicting
row fall strictly below, that count; engine.py's batch-retry path likewise
returns len(cleaned_batch) on any successful executemany attempt; and the
persisted per-table total always equals the accumulated rows_migrated, so
both inherit the over-count. -/
theorem fallback_reports_submitted_count :
    (∀ (env : Migrate.InsertEnv) table columns batch uc schema n,
      Migrate._insert_executemany env table columns batch uc (some schema) = .ok n →
        n = batch.length) ∧
    (∀ key (db rows : List (List Value)), (Target.insertSkip key db rows).2 ≤ rows.length) ∧
    (∀ key (db rows : List (List Value)), (∃ r ∈ rows, key r ∈ db.map key) →
      (Target.insertSkip key db rows).2 < rows.length) ∧
    (∀ (execOk : Nat → Bool) rowOk (batch : List (List Value)),
      (execOk 0 = true ∨ execOk 1 = true ∨ execOk 2 = true) →
        Engine._insert_batch_with_retry execOk rowOk batch = batch.length) ∧
    (∀ env table columns config mca batches prog0 res prog,
      Migrate.migrate_table env table columns config mca batches prog0 = .ok (res, prog) →
        prog.total = res.rows_migrated) := by
  refine ⟨?_, insertSkip_le, insertSkip_lt, ?_, ?_⟩
  · intro env table columns batch uc schema n h
    simp only [Migrate._insert_executemany] at h
    cases henv : env (.exec (Migrate.insertSql schema table columns uc) batch) <;>
      rw [henv] at h
    · cases h; rfl
    · cases h
  · intro execOk rowOk batch h
    by_cases h0 : execOk 0 = true
    · simp [Engine._insert_batch_with_retry, Engine.retryGo, h0]
    · by_cases h1 : execOk 1 = true
      · simp [Engine._insert_batch_with_retry, Engine.retryGo, h0, h1]
      · have h2 : execOk 2 = true := by tauto
        simp [Engine._insert_batch_with_retry, Engine.retryGo, h0, h1, h2]
  · intro env table columns config mca batches prog0 res prog h
    cases columns with
    | nil => simp [Migrate.migrate_table] at h
    | cons pk rest =>
        simp only [Migrate.migrate_table] at h
        split at h <;> (cases h; rfl)

open Migrate HassMigrate in
/-- C8: MigrationConfig (src/migrate/models/table_metadata.py) declares no
max_chunk_size field, so getattr(config, "max_chunk_size", None) yields None
for every instance the dataclass constructor can build and migrate_table
never splits a batch: with an insert environment that rejects any call of
more than one row, a two-row batch under the real config is submitted as a
single two-row insert (both strategies fail and the table fails with zero
rows), whereas the max_chunk_size = 1 configuration that the repository's
own tests try to build would split it into two one-row inserts and
succeed. -/
theorem migration_config_lacks_max_chunk_size :
    (migrate_table
      (fun a => match a with
        | Attempt.copy _ rows _ _ => if rows.length ≤ 1 then Option.none else some PyError.osError
        | Attempt.exec _ rows => if rows.length ≤ 1 then Option.none else some PyError.osError)
      "test_table" ["id", "value"] {} Option.none
      [[[Value.int 1, Value.str ['a']], [Value.int 2, Value.str ['b']]]] Option.none =
      .ok ({ table := "test_table", rows_migrated := 0, success := false,
             errors := [.fallbackFailed "test_table" .osError,
                        .unexpected "test_table" .runtimeError] },
           { last_id := Option.none, total := 0, status := "failed" })) ∧
    (migrate_table
      (fun a => match a with
        | Attempt.copy _ rows _ _ => if rows.length ≤ 1 then Option.none else some PyError.osError
        | Attempt.exec _ rows => if rows.length ≤ 1 then Option.none else some PyError.osError)
      "test_table" ["id", "value"] {} (some 1)
      [[[Value.int 1, Value.str ['a']], [Value.int 2, Value.str ['b']]]] Option.none =
      .ok ({ table := "test_table", rows_migrated := 2, success := true, errors := [] },
           { last_id := some (Value.int 2), total := 2, status := "completed" })) := by
  constructor
  · rfl
  · have hch : chunksOf 1 [[Value.int 1, Value.str ['a']], [Value.int 2, Value.str ['b']]] =
        [[[Value.int 1, Value.str ['a']]], [[Value.int 2, Value.str ['b']]]] := by
      simp [chunksOf]
    simp only [migrate_table, migrateLoop, processChunks]
    norm_num [hch]
    rfl

open Migrate in
/-- Helper: the chunk loop never decreases the running total, whether it
completes or fails. -/
theorem processChunks_total_mono (env : InsertEnv) (uc : Bool) (table : String)
    (columns : List String) (ucs : Option (List (List String))) (schema : String)
    (pk_index : Nat) (chunks : List (List (List Value))) (st : LoopState) :
    (∀ st2, processChunks env uc table columns ucs schema pk_index chunks st = .ok st2 →
      st.total ≤ st2.total) ∧
    (∀ f, processChunks env uc table columns ucs schema pk_index chunks st = .error f →
      st.total ≤ f.state.total) := by
  induction chunks generalizing st with
  | nil =>
      constructor
      · intro st2 h; cases h; exact le_refl _
      · intro f h; cases h
  | cons chunk rest ih =>
      constructor <;> intro out h <;>
        simp only [processChunks] at h
      · split at h
        · cases h
        · rename_i cb ws heq
          split at h
          · exact (ih st).1 out h
          · split at h
            · cases h
            · rename_i n hres
              split at h
              · cases h
              · rename_i lastRow hlast
                split at h
                · cases h
                · rename_i lid hlid
                  have := (ih { last_id := some lid, total := st.total + n }).1 out h
                  simp only at this
                  omega
      · split at h
        · cases h; exact le_refl _
        · rename_i cb ws heq
          split at h
          · exact (ih st).2 out h
          · split at h
            · cases h; exact le_refl _
            · rename_i n hres
              split at h
              · cases h; exact le_refl _
              · rename_i lastRow hlast
                split at h
                · cases h; exact le_refl _
                · rename_i lid hlid
                  have := (ih { last_id := some lid, total := st.total + n }).2 out h
                  simp only at this
                  omega

open Migrate in
/-- Helper: the batch loop never decreases the running total. -/
theorem migrateLoop_total_mono (env : InsertEnv) (uc : Bool) (table : String)
    (columns : List String) (ucs : Option (List (List String))) (schema : String)
    (pk_index : Nat) (mca : Option Int) (batches : List (List (List Value)))
    (st : LoopState) :
    (∀ st2, migrateLoop env uc table columns ucs schema pk_index mca batches st = .ok st2 →
      st.total ≤ st2.total) ∧
    (∀ f, migrateLoop env uc table columns ucs schema pk_index mca batches st = .error f →
      st.total ≤ f.state.total) := by
  induction batches generalizing st with
  | nil =>
      constructor
      · intro st2 h; cases h; exact le_refl _
      · intro f h; cases h
  | cons rows more ih =>
      constructor <;> intro out h <;> simp only [migrateLoop] at h
      · split at h
        · cases h; exact le_refl _
        · split at h
          · cases h
          · rename_i st2 hproc
            exact le_trans
              ((processChunks_total_mono env uc table columns ucs schema pk_index _ st).1 st2 hproc)
              ((ih st2).1 out h)
      · split at h
        · cases h
        · split at h
          · cases h
            exact (processChunks_total_mono env uc table columns ucs schema pk_index _ st).2 _
              (by assumption)
          · rename_i st2 hproc
            exact le_trans
              ((processChunks_total_mono env uc table columns ucs schema pk_index _ st).1 st2 hproc)
              ((ih st2).2 out h)

open Migrate in
/-- Helper: with a nonempty column list, migrate_table catches every failure
and always returns a MigrationResult instead of raising. -/
theorem migrate_table_isOk (env : InsertEnv) (table pk_col : String)
    (restCols : List String) (config : MigrationConfig) (mca : Option Int)
    (batches : List (List (List Value))) (progress0 : Option ProgressEntry) :
    ∃ rp, migrate_table env table (pk_col :: restCols) config mca batches progress0 =
      .ok rp := by
  simp only [migrate_table]
  split <;> exact ⟨_, rfl⟩

open Migrate in
/-- Helper: a run whose first batch commits and whose second batch fails
both insert strategies ends as a failed table that retains the first batch's
cursor and row count. -/
theorem migrate_table_two_batches (env : InsertEnv) (table pk_col : String)
    (restCols : List String) (config : MigrationConfig)
    (b1 b2 : List (List Value)) (cb1 cb2 : List (List Value))
    (ws1 ws2 : List HassMigrate.Warning) (r1 : List Value) (lid1 : Value)
    (e2 e3 : PyError)
    (huc : config.use_copy = true)
    (hb1ne : b1 ≠ [])
    (hclean1 : clean_batch_values table (pk_col :: restCols) b1 = .ok (cb1, ws1))
    (hcb1 : cb1 ≠ [])
    (hcopy1 : env (.copy table cb1 (pk_col :: restCols) config.schema) = Option.none)
    (hlast1 : b1.getLast? = some r1)
    (hlid1 : r1.get? 0 = some lid1)
    (hb2ne : b2 ≠ [])
    (hclean2 : clean_batch_values table (pk_col :: restCols) b2 = .ok (cb2, ws2))
    (hcb2 : cb2 ≠ [])
    (hcopy2 : env (.copy table cb2 (pk_col :: restCols) config.schema) = some e2)
    (hexec2 : env (.exec (insertSql config.schema table (pk_col :: restCols)
        (UNIQUE_CONSTRAINTS table)) cb2) = some e3) :
    migrate_table env table (pk_col :: restCols) config Option.none [b1, b2]
        Option.none =
      .ok ({ table := table, rows_migrated := cb1.length, success := false,
             errors := [.fallbackFailed table e3, .unexpected table .runtimeError] },
           { last_id := some lid1, total := cb1.length, status := "failed" }) := by
  have hpk : (if pk_col ∈ pk_col :: restCols
      then (pk_col :: restCols).indexOf pk_col else 0) = 0 := by
    rw [if_pos (List.mem_cons_self _ _)]
    exact List.indexOf_cons_self _ _
  have hstep1 : processChunks env config.use_copy table (pk_col :: restCols)
      (UNIQUE_CONSTRAINTS table) config.schema 0 [b1]
      { last_id := Option.none, total := 0 } =
      .ok { last_id := some lid1, total := cb1.length } := by
    simp only [processChunks, hclean1, if_neg hcb1, insertChunk, huc, if_true, hcopy1,
      hlast1, hlid1, Nat.zero_add]
  have hstep2 : processChunks env config.use_copy table (pk_col :: restCols)
      (UNIQUE_CONSTRAINTS table) config.schema 0 [b2]
      { last_id := some lid1, total := cb1.length } =
      .error { errors := [.fallbackFailed table e3], exc := .runtimeError,
               state := { last_id := some lid1, total := cb1.length } } := by
    simp only [processChunks, hclean2, if_neg hcb2, insertChunk, huc, if_true, hcopy2,
      _insert_executemany, hexec2]
  have hloop : migrateLoop env config.use_copy table (pk_col :: restCols)
      (UNIQUE_CONSTRAINTS table) config.schema 0 Option.none [b1, b2]
      { last_id := Option.none, total := 0 } =
      .error { errors := [.fallbackFailed table e3], exc := .runtimeError,
               state := { last_id := some lid1, total := cb1.length } } := by
    simp only [migrateLoop, if_neg hb1ne, if_neg hb2ne, gt_iff_lt, lt_irrefl, if_false,
      hstep1, hstep2]
  simp only [migrate_table, hpk, Option.map_none', Option.getD_none, hloop]
  rfl

open Migrate in
/-- Helper: basic facts about any migrate_table outcome: the result names
the table, failure implies a failed status with recorded errors, success
implies completed, the persisted total equals the reported row count, and
previously accumulated progress is never lost. -/
theorem migrate_table_facts (env : InsertEnv) (table : String) (columns : List String)
    (config : MigrationConfig) (mca : Option Int) (batches : List (List (List Value)))
    (prog0 : Option ProgressEntry) (res : MigrationResult) (prog : ProgressEntry)
    (h : migrate_table env table columns config mca batches prog0 = .ok (res, prog)) :
    res.table = table ∧
    (res.success = false → prog.status = "failed" ∧ res.errors ≠ []) ∧
    (res.success = true → prog.status = "completed") ∧
    prog.total = res.rows_migrated ∧
    (prog0.map (fun e => e.total)).getD 0 ≤ res.rows_migrated := by
  cases columns with
  | nil => simp [migrate_table] at h
  | cons pk rest =>
      simp only [migrate_table] at h
      split at h
      · rename_i st hloop
        cases h
        refine ⟨rfl, by simp, fun _ => rfl, rfl, ?_⟩
        exact (migrateLoop_total_mono env config.use_copy table (pk :: rest)
          (UNIQUE_CONSTRAINTS table) config.schema _ mca batches _).1 st hloop
      · rename_i f hloop
        cases h
        refine ⟨rfl, fun _ => ⟨rfl, by simp⟩, by simp, rfl, ?_⟩
        exact (migrateLoop_total_mono env config.use_copy table (pk :: rest)
          (UNIQUE_CONSTRAINTS table) config.schema _ mca batches _).2 f hloop

open Migrate in
/-- Helper: a level task's result always names its own table. -/
theorem run_table_fst_table (env : InsertEnv) (t : String) (cols : List String)
    (config : MigrationConfig) (mca : Option Int) (batches : List (List (List Value)))
    (progress : List (String × ProgressEntry)) :
    (run_table env t cols config mca batches progress).1.table = t := by
  simp only [run_table]
  split
  · rename_i res entry heq
    exact (migrate_table_facts env t cols config mca batches _ res entry heq).1
  · rfl

open Migrate in
/-- Helper: one level contributes exactly one result per table whose columns
are found, in order, regardless of per-table outcomes. -/
theorem runLevel_append (env : String → InsertEnv)
    (all_tables : List (String × List String)) (config : MigrationConfig)
    (mca : Option Int) (sources : String → List (List (List Value)))
    (lvl : List String) (results : List MigrationResult)
    (progress : List (String × ProgressEntry)) :
    ∃ extra prog2,
      runLevel env all_tables config mca sources lvl (results, progress) =
        (results ++ extra, prog2) ∧
      extra.map (fun r => r.table) =
        lvl.filter (fun t => (all_tables.lookup t).isSome) := by
  induction lvl generalizing results progress with
  | nil => exact ⟨[], progress, by simp [runLevel], by simp⟩
  | cons t ts ih =>
      simp only [runLevel]
      cases hlk : all_tables.lookup t with
      | none =>
          obtain ⟨extra, prog2, heq, hmap⟩ := ih results progress
          exact ⟨extra, prog2, heq, by simp [hlk, hmap]⟩
      | some cols =>
          dsimp only
          obtain ⟨extra, prog2, heq, hmap⟩ :=
            ih (results ++ [(run_table (env t) t cols config mca (sources t) progress).1])
              (run_table (env t) t cols config mca (sources t) progress).2
          refine ⟨(run_table (env t) t cols config mca (sources t) progress).1 :: extra,
            prog2, ?_, ?_⟩
          · rw [heq]; simp
          · simp [hlk, hmap, run_table_fst_table]

open Migrate in
/-- Helper: the level loop contributes one result per table across all
levels, regardless of per-table outcomes. -/
theorem runLevels_append (env : String → InsertEnv)
    (all_tables : List (String × List String)) (config : MigrationConfig)
    (mca : Option Int) (sources : String → List (List (List Value)))
    (levels : List (List String)) (results : List MigrationResult)
    (progress : List (String × ProgressEntry)) :
    ∃ extra prog2,
      runLevels env all_tables config mca sources levels (results, progress) =
        (results ++ extra, prog2) ∧
      extra.map (fun r => r.table) =
        levels.flatten.filter (fun t => (all_tables.lookup t).isSome) := by
  induction levels generalizing results progress with
  | nil => exact ⟨[], progress, by simp [runLevels], by simp⟩
  | cons lvl more ih =>
      obtain ⟨extra1, prog1, heq1, hmap1⟩ :=
        runLevel_append env all_tables config mca sources lvl results progress
      obtain ⟨extra2, prog2, heq2, hmap2⟩ := ih (results ++ extra1) prog1
      refine ⟨extra1 ++ extra2, prog2, ?_, ?_⟩
      · simp only [runLevels, heq1, heq2, List.append_assoc]
      · simp [hmap1, hmap2, List.filter_append]

open Migrate in
/-- C2: an unrecoverable chunk failure aborts only that table: the run on
two batches whose second batch fails both strategies returns a failed
MigrationResult carrying the rows migrated so far while the progress entry
is marked failed and retains the first batch's committed cursor and total;
migrate_table never lets the failure escape; any failed table result comes
with a failed status, recorded errors and no loss of prior progress; and
migrate_all_tables still produces a result for every level table with known
columns, whatever the per-table insert outcomes. -/
theorem table_failure_isolated (env : InsertEnv) (table pk_col : String)
    (restCols : List String) (config : MigrationConfig)
    (b1 b2 : List (List Value)) (cb1 cb2 : List (List Value))
    (ws1 ws2 : List HassMigrate.Warning) (r1 : List Value) (lid1 : Value)
    (e2 e3 : PyError)
    (huc : config.use_copy = true)
    (hb1ne : b1 ≠ [])
    (hclean1 : clean_batch_values table (pk_col :: restCols) b1 = .ok (cb1, ws1))
    (hcb1 : cb1 ≠ [])
    (hcopy1 : env (.copy table cb1 (pk_col :: restCols) config.schema) = Option.none)
    (hlast1 : b1.getLast? = some r1)
    (hlid1 : r1.get? 0 = some lid1)
    (hb2ne : b2 ≠ [])
    (hclean2 : clean_batch_values table (pk_col :: restCols) b2 = .ok (cb2, ws2))
    (hcb2 : cb2 ≠ [])
    (hcopy2 : env (.copy table cb2 (pk_col :: restCols) config.schema) = some e2)
    (hexec2 : env (.exec (insertSql config.schema table (pk_col :: restCols)
        (UNIQUE_CONSTRAINTS table)) cb2) = some e3) :
    (migrate_table env table (pk_col :: restCols) config Option.none [b1, b2]
        Option.none =
      .ok ({ table := table, rows_migrated := cb1.length, success := false,
             errors := [.fallbackFailed table e3, .unexpected table .runtimeError] },
           { last_id := some lid1, total := cb1.length, status := "failed" })) ∧
    (∀ (env2 : InsertEnv) t2 pk2 rest2 cfg2 mca2 batches2 prog2,
      ∃ rp, migrate_table env2 t2 (pk2 :: rest2) cfg2 mca2 batches2 prog2 = .ok rp) ∧
    (∀ (env2 : InsertEnv) t2 cols2 cfg2 mca2 batches2 prog2 res prog,
      migrate_table env2 t2 cols2 cfg2 mca2 batches2 prog2 = .ok (res, prog) →
        (res.success = false → prog.status = "failed" ∧
          prog.total = res.rows_migrated ∧ res.errors ≠ [] ∧
          (prog2.map (fun e => e.total)).getD 0 ≤ res.rows_migrated) ∧
        (res.success = true → prog.status = "completed")) ∧
    (∀ (env2 : String → InsertEnv) all_tables cfg2 mca2 sources deps prog2 levels,
      Dependency.topological_sort (all_tables.map Prod.fst) deps = .ok levels →
      ∃ results progF,
        migrate_all_tables env2 all_tables cfg2 mca2 sources deps prog2 =
          .ok (results, progF) ∧
        results.map (fun r => r.table) =
          levels.flatten.filter (fun t => (all_tables.lookup t).isSome)) := by
  refine ⟨?_, ?_, ?_, ?_⟩
  · exact migrate_table_two_batches env table pk_col restCols config b1 b2 cb1 cb2
      ws1 ws2 r1 lid1 e2 e3 huc hb1ne hclean1 hcb1 hcopy1 hlast1 hlid1 hb2ne hclean2
      hcb2 hcopy2 hexec2
  · intro env2 t2 pk2 rest2 cfg2 mca2 batches2 prog2
    exact migrate_table_isOk env2 t2 pk2 rest2 cfg2 mca2 batches2 prog2
  · intro env2 t2 cols2 cfg2 mca2 batches2 prog2 res prog h
    obtain ⟨-, hfail, hdone, htot, hge⟩ :=
      migrate_table_facts env2 t2 cols2 cfg2 mca2 batches2 prog2 res prog h
    exact ⟨fun hs => ⟨(hfail hs).1, htot, (hfail hs).2, hge⟩, hdone⟩
  · intro env2 all_tables cfg2 mca2 sources deps prog2 levels hsort
    obtain ⟨extra, progF, heq, hmap⟩ :=
      runLevels_append env2 all_tables cfg2 mca2 sources levels [] prog2
    refine ⟨extra, progF, ?_, hmap⟩
    simp only [migrate_all_tables, hsort, heq, List.nil_append]

open Migrate in
/-- Witness for C2: a concrete event_data run where batch one commits and
batch two fails copy and fallback. -/
theorem table_failure_isolated_witness :
    migrate_table
      (fun a => match a with
        | Attempt.copy _ rows _ _ =>
            if rows = [[Value.int 1, Value.int 7]] then Option.none
            else some PyError.osError
        | Attempt.exec _ _ => some PyError.osError)
      "event_data" ["data_id", "hash"] {} Option.none
      [[[Value.int 1, Value.int 7]], [[Value.int 2, Value.int 8]]] Option.none =
      .ok ({ table := "event_data", rows_migrated := 1, success := false,
             errors := [.fallbackFailed "event_data" .osError,
                        .unexpected "event_data" .runtimeError] },
           { last_id := some (Value.int 1), total := 1, status := "failed" }) :=
  (table_failure_isolated
    (fun a => match a with
      | Attempt.copy _ rows _ _ =>
          if rows = [[Value.int 1, Value.int 7]] then Option.none
          else some PyError.osError
      | Attempt.exec _ _ => some PyError.osError)
    "event_data" "data_id" ["hash"] {}
    [[Value.int 1, Value.int 7]] [[Value.int 2, Value.int 8]]
    [[Value.int 1, Value.int 7]] [[Value.int 2, Value.int 8]] [] []
    [Value.int 1, Value.int 7] (Value.int 1) PyError.osError PyError.osError
    rfl (by decide) rfl (by decide) rfl rfl rfl (by decide) rfl (by decide) rfl
    rfl).1

open Sched in
/-- Helper: the initial scheduler state satisfies the invariant. -/
theorem sched_inv_init (levels : List (List String)) (cap : Nat) :
    Inv levels cap (State.init levels cap) := by
  refine ⟨by simp [State.init], Or.inl ⟨rfl, rfl, [], rfl, ?_⟩⟩
  intro lvl h
  simp at h

open Sched in
/-- Helper: every scheduler step preserves the invariant. -/
theorem sched_inv_step (levels : List (List String)) (cap : Nat) (s s' : State)
    (hinv : Inv levels cap s) (hs : Step s s') : Inv levels cap s' := by
  obtain ⟨hlen, hdisj⟩ := hinv
  cases hs with
  | start t p k hpend hperm =>
      constructor
      · simp only [List.length_cons]
        omega
      · rcases hdisj with ⟨hp0, _, _⟩ | ⟨past, cur, hlv, hpast, hpendc, hrunc, hcur⟩
        · rw [hp0] at hpend; cases hpend
        · refine Or.inr ⟨past, cur, hlv, hpast, ?_, ?_, ?_⟩
          · intro x hx
            exact hpendc x (by rw [hpend]; exact List.mem_cons_of_mem _ hx)
          · intro x hx
            rcases List.mem_cons.mp hx with rfl | hx2
            · exact hpendc x (by rw [hpend]; exact List.mem_cons_self _ _)
            · exact hrunc x hx2
          · intro x hx
            rcases hcur x hx with hxp | hxr | hxc
            · rw [hpend] at hxp
              rcases List.mem_cons.mp hxp with rfl | hx2
              · exact Or.inr (Or.inl (List.mem_cons_self _ _))
              · exact Or.inl hx2
            · exact Or.inr (Or.inl (List.mem_cons_of_mem _ hxr))
            · exact Or.inr (Or.inr hxc)
  | finish t r1 r2 hrun =>
      have hlen2 : s.running.length = r1.length + r2.length + 1 := by
        rw [hrun]; simp; omega
      constructor
      · simp only [List.length_append]
        omega
      · rcases hdisj with ⟨_, hr0, _⟩ | ⟨past, cur, hlv, hpast, hpendc, hrunc, hcur⟩
        · rw [hr0] at hrun
          exact absurd hrun.symm (by simp)
        · refine Or.inr ⟨past, cur, hlv, ?_, hpendc, ?_, ?_⟩
          · intro lvl hl x hx
            exact List.mem_cons_of_mem _ (hpast lvl hl x hx)
          · intro x hx
            refine hrunc x ?_
            rw [hrun]
            rcases List.mem_append.mp hx with hx1 | hx2
            · exact List.mem_append_left _ hx1
            · exact List.mem_append_right _ (List.mem_cons_of_mem _ hx2)
          · intro x hx
            rcases hcur x hx with hxp | hxr | hxc
            · exact Or.inl hxp
            · rw [hrun] at hxr
              rcases List.mem_append.mp hxr with hx1 | hx2
              · exact Or.inr (Or.inl (List.mem_append_left _ hx1))
              · rcases List.mem_cons.mp hx2 with rfl | hx3
                · exact Or.inr (Or.inr (List.mem_cons_self _ _))
                · exact Or.inr (Or.inl (List.mem_append_right _ hx3))
            · exact Or.inr (Or.inr (List.mem_cons_of_mem _ hxc))
  | nextLevel lvl fs hpend hrun hfut =>
      constructor
      · exact hlen
      · rcases hdisj with ⟨_, _, past, hlv, hpast⟩ | ⟨past, cur, hlv, hpast, hpendc, hrunc, hcur⟩
        · refine Or.inr ⟨past, lvl, ?_, hpast, fun x hx => hx, ?_, ?_⟩
          · rw [hlv, hfut]
          · intro x hx
            rw [hrun] at hx
            cases hx
          · intro x hx
            exact Or.inl hx
        · refine Or.inr ⟨past ++ [cur], lvl, ?_, ?_, fun x hx => hx, ?_, ?_⟩
          · rw [hlv, hfut]
            simp
          · intro l hl x hx
            rcases List.mem_append.mp hl with hl1 | hl2
            · exact hpast l hl1 x hx
            · rcases List.mem_cons.mp hl2 with rfl | hl3
              · rcases hcur x hx with hxp | hxr | hxc
                · rw [hpend] at hxp; cases hxp
                · rw [hrun] at hxr; cases hxr
                · exact hxc
              · cases hl3
          · intro x hx
            rw [hrun] at hx
            cases hx
          · intro x hx
            exact Or.inl hx

open Sched in
/-- Helper: every reachable state of the migrate scheduler satisfies the
invariant. -/
theorem sched_inv_reachable (levels : List (List String)) (cap : Nat) (s : State)
    (h : Reachable levels cap s) : Inv levels cap s := by
  induction h with
  | init => exact sched_inv_init levels cap
  | step hr hs ih => exact sched_inv_step levels cap _ _ ih hs

open Sched in
/-- C4 (amended): in the migrate implementation, every reachable scheduler
state has at most max(1, max_concurrent_tables) migrations in flight (hence
at most max_concurrent_tables when that bound is at least 1), and the level
structure always splits into fully finished earlier levels, a current level
confining all pending and running tasks, and untouched later levels - no
later-level table starts before every earlier-level table has finished. -/
theorem scheduler_bounded_and_level_sequenced (config : Migrate.MigrationConfig) (levels : List (List String))
    (s : State) (h : Reachable levels (semaphoreCapacity config) s) :
    s.running.length ≤ semaphoreCapacity config ∧
    (1 ≤ config.max_concurrent_tables →
      s.running.length ≤ config.max_concurrent_tables.toNat) ∧
    (∃ past rest, levels = past ++ rest ∧
      (∀ lvl ∈ past, ∀ t ∈ lvl, t ∈ s.completed) ∧
      (rest = s.future ∨ ∃ cur fs, rest = cur :: fs ∧ s.future = fs ∧
        (∀ t ∈ s.pending, t ∈ cur) ∧ (∀ t ∈ s.running, t ∈ cur))) := by
  obtain ⟨hlen, hdisj⟩ := sched_inv_reachable levels (semaphoreCapacity config) s h
  have hbound : s.running.length ≤ semaphoreCapacity config := by omega
  refine ⟨hbound, ?_, ?_⟩
  · intro hm
    have hcap : semaphoreCapacity config = config.max_concurrent_tables.toNat := by
      simp only [semaphoreCapacity]
      rw [if_neg (by omega)]
      rw [max_eq_right hm]
    rw [hcap] at hbound
    exact hbound
  · rcases hdisj with ⟨hp0, hr0, past, hlv, hpast⟩ |
      ⟨past, cur, hlv, hpast, hpendc, hrunc, hcur⟩
    · exact ⟨past, s.future, hlv, hpast, Or.inl rfl⟩
    · exact ⟨past, cur :: s.future, hlv, hpast,
        Or.inr ⟨cur, s.future, rfl, rfl, hpendc, hrunc⟩⟩

open Sched in
/-- Witness for C4 at the initial state of a one-level run under the
default configuration. -/
theorem scheduler_bounded_witness :
    (State.init [["event_types"]] (semaphoreCapacity {})).running.length ≤
      semaphoreCapacity {} ∧
    (1 ≤ ({} : Migrate.MigrationConfig).max_concurrent_tables →
      (State.init [["event_types"]] (semaphoreCapacity {})).running.length ≤
        ({} : Migrate.MigrationConfig).max_concurrent_tables.toNat) ∧
    (∃ past rest, [["event_types"]] = past ++ rest ∧
      (∀ lvl ∈ past, ∀ t ∈ lvl,
        t ∈ (State.init [["event_types"]] (semaphoreCapacity {})).completed) ∧
      (rest = (State.init [["event_types"]] (semaphoreCapacity {})).future ∨
        ∃ cur fs, rest = cur :: fs ∧
          (State.init [["event_types"]] (semaphoreCapacity {})).future = fs ∧
          (∀ t ∈ (State.init [["event_types"]] (semaphoreCapacity {})).pending, t ∈ cur) ∧
          (∀ t ∈ (State.init [["event_types"]] (semaphoreCapacity {})).running, t ∈ cur))) :=
  scheduler_bounded_and_level_sequenced {} [["event_types"]] _ Reachable.init

open Sched in
/-- Counterexample to C4 as stated: the hass_migrate migrate_all_tables has
no semaphore, so with max_concurrent_tables = 2 a three-table level reaches
three simultaneously in-flight migrations. -/
theorem hass_scheduler_unbounded :
    ∃ s, HReachable [["a", "b", "c"]] s ∧ s.running.length = 3 ∧
      ¬ s.running.length ≤
        ({ max_concurrent_tables := 2 } : Migrate.MigrationConfig).max_concurrent_tables.toNat := by
  refine ⟨⟨[], ["c", "b", "a"], [], [], 0⟩, ?_, rfl, by decide⟩
  have h0 : HReachable [["a", "b", "c"]] (State.init [["a", "b", "c"]] 0) :=
    HReachable.init
  have h1 := HReachable.step h0
    (HStep.nextLevel (State.init [["a", "b", "c"]] 0) ["a", "b", "c"] [] rfl rfl rfl)
  have h2 := HReachable.step h1 (HStep.start _ "a" ["b", "c"] rfl)
  have h3 := HReachable.step h2 (HStep.start _ "b" ["c"] rfl)
  have h4 := HReachable.step h3 (HStep.start _ "c" [] rfl)
  exact h4

open Dependency in
/-- Helper: looking up a key that is not among an association list's keys
yields nothing. -/
theorem lookup_eq_none_of_not_mem (l : List (String × List String)) (a : String)
    (h : a ∉ l.map Prod.fst) : l.lookup a = Option.none := by
  induction l with
  | nil => rfl
  | cons e es ih =>
      obtain ⟨k, ds⟩ := e
      simp only [List.map_cons, List.mem_cons, not_or] at h
      simp only [List.lookup_cons]
      rw [beq_false_of_ne h.1]
      exact ih h.2

open Dependency in
/-- Helper: pointwise characterisation of one pass of the decrement loop
over duplicate-free dict entries - only a table still in remaining whose
dependency list contains the placed table is decremented, once. -/
theorem foldDec_spec (remaining : List String) (table : String) :
    ∀ (es : List (String × List String)), (es.map Prod.fst).Nodup →
    ∀ (ind : String → Nat) (t : String),
    (es.foldl (fun ind entry =>
      if entry.1 ∈ remaining ∧ table ∈ entry.2 then
        (fun u => if u = entry.1 then ind u - 1 else ind u) else ind) ind) t =
    if t ∈ remaining ∧ table ∈ (es.lookup t).getD [] then ind t - 1 else ind t := by
  intro es
  induction es with
  | nil => intro _ ind t; simp
  | cons e es ih =>
      intro hkeys ind t
      obtain ⟨k, ds⟩ := e
      simp only [List.map_cons, List.nodup_cons] at hkeys
      simp only [List.foldl_cons]
      rw [ih hkeys.2]
      by_cases htk : t = k
      · subst htk
        have hlk : es.lookup t = Option.none :=
          lookup_eq_none_of_not_mem es t hkeys.1
        rw [hlk]
        simp only [List.lookup_cons, beq_self_eq_true, Option.getD_some,
          Option.getD_none, List.not_mem_nil, and_false, if_false]
        by_cases hc : t ∈ remaining ∧ table ∈ ds
        · simp [hc]
        · simp [hc]
      · have hbeq : (t == k) = false := beq_false_of_ne htk
        simp only [List.lookup_cons, hbeq]
        by_cases hc : k ∈ remaining ∧ table ∈ ds
        · rw [if_pos hc]
          simp only [if_neg htk]
        · rw [if_neg hc]

open Dependency in
/-- Helper: decTable lowers exactly the in-degrees of remaining tables that
depend on the placed table. -/
theorem decTable_spec (dependencies : DepGraph)
    (hkeys : (dependencies.map Prod.fst).Nodup) (remaining : List String)
    (table : String) (ind : String → Nat) (t : String) :
    decTable dependencies remaining table ind t =
      if t ∈ remaining ∧ table ∈ depsOf dependencies t then ind t - 1 else ind t :=
  foldDec_spec remaining table dependencies hkeys ind t

open Dependency in
/-- Helper: decrementing for a whole level subtracts, for each remaining
table, the number of level tables among its dependencies. -/
theorem decLevel_spec (dependencies : DepGraph)
    (hkeys : (dependencies.map Prod.fst).Nodup) (remaining : List String) :
    ∀ (level : List String) (ind : String → Nat) (t : String),
    decLevel dependencies remaining level ind t =
      if t ∈ remaining then
        ind t - level.countP (fun tb => tb ∈ depsOf dependencies t) else ind t := by
  intro level
  induction level with
  | nil =>
      intro ind t
      simp [decLevel]
  | cons tb lvl ih =>
      intro ind t
      simp only [decLevel, List.foldl_cons] at ih ⊢
      rw [ih]
      rw [decTable_spec dependencies hkeys remaining tb ind t]
      by_cases hr : t ∈ remaining
      · rw [if_pos hr, if_pos hr]
        by_cases hd : tb ∈ depsOf dependencies t
        · rw [if_pos ⟨hr, hd⟩]
          rw [List.countP_cons]
          simp only [hd, decide_True, if_true]
          omega
        · rw [if_neg (by tauto)]
          rw [List.countP_cons]
          simp [hd]
      · rw [if_neg hr, if_neg hr]
        rw [if_neg (by tauto)]

/-- Helper: filtering by a disjunction of mutually exclusive predicates
splits the count. -/
theorem length_filter_or_disjoint (l : List String) (p q : String → Prop)
    [DecidablePred p] [DecidablePred q] (h : ∀ x ∈ l, ¬(p x ∧ q x)) :
    (l.filter (fun x => decide (p x ∨ q x))).length =
      (l.filter (fun x => decide (p x))).length +
      (l.filter (fun x => decide (q x))).length := by
  induction l with
  | nil => simp
  | cons a l ih =>
      have hnotboth := h a (List.mem_cons_self _ _)
      have ihl := ih (fun x hx => h x (List.mem_cons_of_mem _ hx))
      by_cases hp : p a
      · have hq : ¬ q a := fun hq => hnotboth ⟨hp, hq⟩
        rw [List.filter_cons_of_pos (by simp [hp]),
          List.filter_cons_of_pos (by simp [hp]),
          List.filter_cons_of_neg (by simp [hq])]
        simp only [List.length_cons]
        rw [ihl]
        omega
      · by_cases hq : q a
        · rw [List.filter_cons_of_pos (by simp [hq]),
            List.filter_cons_of_neg (by simp [hp]),
            List.filter_cons_of_pos (by simp [hq])]
          simp only [List.length_cons]
          rw [ihl]
          omega
        · rw [List.filter_cons_of_neg (by simp [hp, hq]),
            List.filter_cons_of_neg (by simp [hp]),
            List.filter_cons_of_neg (by simp [hq])]
          exact ihl

/-- Helper: for duplicate-free lists, the intersection count is symmetric. -/
theorem length_filter_mem_comm (l1 l2 : List String) (h1 : l1.Nodup) (h2 : l2.Nodup) :
    (l1.filter (fun x => decide (x ∈ l2))).length =
      (l2.filter (fun x => decide (x ∈ l1))).length := by
  have e1 : (l1.filter (fun x => decide (x ∈ l2))).toFinset = l1.toFinset ∩ l2.toFinset := by
    ext a
    simp [List.mem_filter]
  have e2 : (l2.filter (fun x => decide (x ∈ l1))).toFinset = l2.toFinset ∩ l1.toFinset := by
    ext a
    simp [List.mem_filter]
  rw [← List.toFinset_card_of_nodup (h1.filter _), ← List.toFinset_card_of_nodup (h2.filter _),
    e1, e2, Finset.inter_comm]

open Dependency in
/-- Helper: the in-degree bookkeeping invariant - in-degree equals the
number of dependencies still unplaced - survives extracting a level. -/
theorem ind_invariant_step (dependencies : DepGraph)
    (hkeys : (dependencies.map Prod.fst).Nodup)
    (remaining level remaining2 : List String) (ind : String → Nat)
    (hdup : ∀ t ∈ remaining, (depsOf dependencies t).Nodup)
    (hInd : ∀ t ∈ remaining, ind t =
      ((depsOf dependencies t).filter (fun d => decide (d ∈ remaining))).length)
    (hlevel : ∀ x, x ∈ level ↔ x ∈ remaining ∧ ind x = 0)
    (hlevelnd : level.Nodup)
    (hrem2 : ∀ x, x ∈ remaining2 ↔ x ∈ remaining ∧ x ∉ level) :
    ∀ t ∈ remaining2, decLevel dependencies remaining2 level ind t =
      ((depsOf dependencies t).filter (fun d => decide (d ∈ remaining2))).length := by
  intro t ht2
  have htr : t ∈ remaining := ((hrem2 t).mp ht2).1
  rw [decLevel_spec dependencies hkeys remaining2 level ind t, if_pos ht2]
  rw [hInd t htr]
  have hcount : level.countP (fun tb => tb ∈ depsOf dependencies t) =
      ((depsOf dependencies t).filter (fun d => decide (d ∈ level))).length := by
    rw [List.countP_eq_length_filter]
    exact length_filter_mem_comm level (depsOf dependencies t) hlevelnd (hdup t htr)
  rw [hcount]
  have hcongr : (depsOf dependencies t).filter (fun d => decide (d ∈ remaining)) =
      (depsOf dependencies t).filter (fun d => decide (d ∈ level ∨ d ∈ remaining2)) := by
    apply List.filter_congr
    intro d _
    simp only [decide_eq_decide]
    constructor
    · intro hd
      by_cases hl : d ∈ level
      · exact Or.inl hl
      · exact Or.inr ((hrem2 d).mpr ⟨hd, hl⟩)
    · rintro (hl | h2)
      · exact ((hlevel d).mp hl).1
      · exact ((hrem2 d).mp h2).1
  rw [hcongr]
  rw [length_filter_or_disjoint (depsOf dependencies t) _ _ (fun x _ hboth =>
    ((hrem2 x).mp hboth.2).2 hboth.1)]
  omega

open Dependency in
/-- Helper: the while loop of topological_sort, under the in-degree
invariant, duplicate-free dependency lists scoped to remaining-or-placed
tables, either (with an acyclicity ranking) extracts levels that place every
table strictly after all of its dependencies and cover remaining exactly, or
raises naming a nonempty set of tables each of which depends on another
named table. -/
theorem topoLoop_spec (dependencies : DepGraph)
    (hkeys : (dependencies.map Prod.fst).Nodup) :
    ∀ (n : Nat) (remaining : List String), remaining.length ≤ n →
    ∀ (ind : String → Nat) (levels : List (List String)) (placed : List String),
      remaining.Nodup →
      (∀ t ∈ remaining, (depsOf dependencies t).Nodup) →
      (∀ t ∈ remaining, ind t =
        ((depsOf dependencies t).filter (fun d => decide (d ∈ remaining))).length) →
      (∀ t ∈ remaining, ∀ d ∈ depsOf dependencies t, d ∈ remaining ∨ d ∈ placed) →
      ((∃ rank : String → Nat, ∀ t ∈ remaining, ∀ d ∈ depsOf dependencies t,
          d ∈ remaining → rank d < rank t) →
        ∃ extra, topoLoop dependencies ind remaining levels = .ok (levels ++ extra) ∧
          Placed (depsOf dependencies) placed extra ∧
          (∀ t, t ∈ extra.flatten ↔ t ∈ remaining)) ∧
      (∀ l, topoLoop dependencies ind remaining levels = .error l →
        l ≠ [] ∧ (∀ t ∈ l, t ∈ remaining) ∧
        (∀ t ∈ l, ∃ d ∈ depsOf dependencies t, d ∈ l)) := by
  intro n
  induction n with
  | zero =>
      intro remaining hlen ind levels placed hnd hdup hInd hscope
      have hrem : remaining = [] := List.eq_nil_of_length_eq_zero (Nat.le_zero.mp hlen)
      subst hrem
      constructor
      · intro _
        refine ⟨[], ?_, trivial, by simp⟩
        rw [topoLoop]
        simp
      · intro l hl
        rw [topoLoop] at hl
        simp at hl
  | succ n ih =>
      intro remaining hlen ind levels placed hnd hdup hInd hscope
      by_cases hrem : remaining = []
      · subst hrem
        constructor
        · intro _
          refine ⟨[], ?_, trivial, by simp⟩
          rw [topoLoop]
          simp
        · intro l hl
          rw [topoLoop] at hl
          simp at hl
      · have hnonzero : ∀ t ∈ remaining, ind t ≠ 0 → ∃ d ∈ depsOf dependencies t,
            d ∈ remaining := by
          intro t ht hne
          rw [hInd t ht] at hne
          have hne2 : (depsOf dependencies t).filter (fun d => decide (d ∈ remaining)) ≠ [] := by
            intro hnil
            rw [hnil] at hne
            exact hne rfl
          obtain ⟨d, hd⟩ := List.exists_mem_of_ne_nil _ hne2
          have := List.mem_filter.mp hd
          exact ⟨d, this.1, by simpa using this.2⟩
        have hlevmem : ∀ x, x ∈ remaining.filter (fun t => ind t == 0) ↔
            x ∈ remaining ∧ ind x = 0 := by
          intro x
          simp [List.mem_filter]
        by_cases hl : remaining.filter (fun t => ind t == 0) = []
        · have hres : topoLoop dependencies ind remaining levels = .error remaining := by
            rw [topoLoop, dif_neg hrem]
            dsimp only
            rw [dif_pos hl]
          have hstuck : ∀ t ∈ remaining, ind t ≠ 0 := by
            intro t ht h0
            have : t ∈ remaining.filter (fun t => ind t == 0) :=
              (hlevmem t).mpr ⟨ht, h0⟩
            rw [hl] at this
            cases this
          constructor
          · rintro ⟨rank, hrank⟩
            exfalso
            cases hargmin : remaining.argmin rank with
            | none =>
                exact hrem (List.argmin_eq_none.mp hargmin)
            | some m =>
                have hm : m ∈ remaining := List.argmin_mem hargmin
                obtain ⟨d, hdD, hdr⟩ := hnonzero m hm (hstuck m hm)
                have h1 : rank d < rank m := hrank m hm d hdD hdr
                have h2 : rank m ≤ rank d := List.le_of_mem_argmin hdr hargmin
                omega
          · intro l hleq
            rw [hres] at hleq
            injection hleq with hleq
            subst hleq
            refine ⟨hrem, fun t ht => ht, ?_⟩
            intro t ht
            exact hnonzero t ht (hstuck t ht)
        · have hres : topoLoop dependencies ind remaining levels =
              topoLoop dependencies
                (decLevel dependencies
                  (remaining.filter (fun t => decide (t ∉ remaining.filter (fun t => ind t == 0))))
                  (remaining.filter (fun t => ind t == 0)) ind)
                (remaining.filter (fun t => decide (t ∉ remaining.filter (fun t => ind t == 0))))
                (levels ++ [remaining.filter (fun t => ind t == 0)]) := by
            rw [topoLoop, dif_neg hrem]
            dsimp only
            rw [dif_neg hl]
          have hrem2mem : ∀ x,
              x ∈ remaining.filter (fun t => decide (t ∉ remaining.filter (fun t => ind t == 0))) ↔
              x ∈ remaining ∧ x ∉ remaining.filter (fun t => ind t == 0) := by
            intro x
            constructor
            · intro hx
              exact ⟨(List.mem_filter.mp hx).1,
                of_decide_eq_true (List.mem_filter.mp hx).2⟩
            · rintro ⟨h1, h2⟩
              exact List.mem_filter.mpr ⟨h1, decide_eq_true h2⟩
          have hlt : (remaining.filter
              (fun t => decide (t ∉ remaining.filter (fun t => ind t == 0)))).length <
              remaining.length := by
            obtain ⟨x, hx⟩ := List.exists_mem_of_ne_nil _ hl
            have hxr : x ∈ remaining := (List.mem_filter.mp hx).1
            refine lt_of_le_of_ne (List.length_filter_le _ _) (fun heq => ?_)
            have := List.filter_length_eq_length.mp heq x hxr
            simp only [decide_eq_true_eq] at this
            exact this hx
          have hnd2 : (remaining.filter
              (fun t => decide (t ∉ remaining.filter (fun t => ind t == 0)))).Nodup :=
            hnd.filter _
          have hdup2 : ∀ t ∈ remaining.filter
              (fun t => decide (t ∉ remaining.filter (fun t => ind t == 0))),
              (depsOf dependencies t).Nodup :=
            fun t ht => hdup t ((hrem2mem t).mp ht).1
          have hInd2 := ind_invariant_step dependencies hkeys remaining
            (remaining.filter (fun t => ind t == 0))
            (remaining.filter (fun t => decide (t ∉ remaining.filter (fun t => ind t == 0))))
            ind hdup hInd hlevmem (hnd.filter _) hrem2mem
          have hscope2 : ∀ t ∈ remaining.filter
              (fun t => decide (t ∉ remaining.filter (fun t => ind t == 0))),
              ∀ d ∈ depsOf dependencies t,
              d ∈ remaining.filter (fun t => decide (t ∉ remaining.filter (fun t => ind t == 0))) ∨
              d ∈ placed ++ remaining.filter (fun t => ind t == 0) := by
            intro t ht d hd
            rcases hscope t ((hrem2mem t).mp ht).1 d hd with hdr | hdp
            · by_cases hdl : d ∈ remaining.filter (fun t => ind t == 0)
              · exact Or.inr (List.mem_append_right _ hdl)
              · exact Or.inl ((hrem2mem d).mpr ⟨hdr, hdl⟩)
            · exact Or.inr (List.mem_append_left _ hdp)
          obtain ⟨ihsucc, iherr⟩ := ih
            (remaining.filter (fun t => decide (t ∉ remaining.filter (fun t => ind t == 0))))
            (by omega)
            (decLevel dependencies
              (remaining.filter (fun t => decide (t ∉ remaining.filter (fun t => ind t == 0))))
              (remaining.filter (fun t => ind t == 0)) ind)
            (levels ++ [remaining.filter (fun t => ind t == 0)])
            (placed ++ remaining.filter (fun t => ind t == 0))
            hnd2 hdup2 hInd2 hscope2
          have hlevplaced : ∀ t ∈ remaining.filter (fun t => ind t == 0),
              ∀ d ∈ depsOf dependencies t, d ∈ placed := by
            intro t htl d hd
            have htr := ((hlevmem t).mp htl).1
            have hind0 := ((hlevmem t).mp htl).2
            rcases hscope t htr d hd with hdr | hdp
            · exfalso
              have hzero : ((depsOf dependencies t).filter
                  (fun d => decide (d ∈ remaining))).length = 0 := by
                rw [← hInd t htr]; exact hind0
              have hdmem : d ∈ (depsOf dependencies t).filter
                  (fun d => decide (d ∈ remaining)) :=
                List.mem_filter.mpr ⟨hd, by simpa using hdr⟩
              rw [List.length_eq_zero.mp hzero] at hdmem
              cases hdmem
            · exact hdp
          constructor
          · rintro ⟨rank, hrank⟩
            have hrank2 : ∀ t ∈ remaining.filter
                (fun t => decide (t ∉ remaining.filter (fun t => ind t == 0))),
                ∀ d ∈ depsOf dependencies t,
                d ∈ remaining.filter (fun t => decide (t ∉ remaining.filter (fun t => ind t == 0))) →
                rank d < rank t := by
              intro t ht d hd hdr2
              exact hrank t ((hrem2mem t).mp ht).1 d hd ((hrem2mem d).mp hdr2).1
            obtain ⟨extra2, heq2, hplc2, hflat2⟩ := ihsucc ⟨rank, hrank2⟩
            refine ⟨remaining.filter (fun t => ind t == 0) :: extra2, ?_, ⟨hlevplaced, hplc2⟩, ?_⟩
            · rw [hres, heq2]
              simp
            · intro t
              simp only [List.flatten_cons, List.mem_append]
              constructor
              · rintro (htl | hte)
                · exact ((hlevmem t).mp htl).1
                · exact ((hrem2mem t).mp ((hflat2 t).mp hte)).1
              · intro htr
                by_cases htl : t ∈ remaining.filter (fun t => ind t == 0)
                · exact Or.inl htl
                · exact Or.inr ((hflat2 t).mpr ((hrem2mem t).mpr ⟨htr, htl⟩))
          · intro l hleq
            rw [hres] at hleq
            obtain ⟨hlne, hmem, hstuck⟩ := iherr l hleq
            exact ⟨hlne, fun t ht => ((hrem2mem t).mp (hmem t ht)).1, hstuck⟩

open Dependency in
/-- C3 (amended): when the dependency dict has duplicate-free keys and each
listed table's dependency list is duplicate-free and drawn from the listed
tables, then: if there is no cycle among the listed tables (witnessed by a
rank function decreasing along dependency edges), topological_sort returns
levels in which every table appears strictly after the levels containing
all of its dependencies and which cover the listed tables exactly; and
whenever it raises instead, the error names a nonempty set of stuck tables,
each depending on another named table. -/
theorem topological_sort_levels_ordered (tables : List String) (dependencies : DepGraph)
    (hkeys : (dependencies.map Prod.fst).Nodup)
    (hscope : ∀ t ∈ tables, ∀ d ∈ depsOf dependencies t, d ∈ tables)
    (hdup : ∀ t ∈ tables, (depsOf dependencies t).Nodup) :
    ((∃ rank : String → Nat, ∀ t ∈ tables, ∀ d ∈ depsOf dependencies t,
        d ∈ tables → rank d < rank t) →
      ∃ levels, topological_sort tables dependencies = .ok levels ∧
        Placed (depsOf dependencies) [] levels ∧
        (∀ t, t ∈ levels.flatten ↔ t ∈ tables)) ∧
    (∀ l, topological_sort tables dependencies = .error l →
      l ≠ [] ∧ (∀ t ∈ l, t ∈ tables) ∧
      (∀ t ∈ l, ∃ d ∈ depsOf dependencies t, d ∈ l)) := by
  have hmemdedup : ∀ x : String, x ∈ tables.dedup ↔ x ∈ tables :=
    fun x => List.mem_dedup
  have hInd0 : ∀ t ∈ tables.dedup, initInDegree tables dependencies t =
      ((depsOf dependencies t).filter (fun d => decide (d ∈ tables.dedup))).length := by
    intro t ht
    have htT := (hmemdedup t).mp ht
    simp only [initInDegree, if_pos htT]
    have hfe : (depsOf dependencies t).filter (fun d => decide (d ∈ tables.dedup)) =
        depsOf dependencies t := by
      apply List.filter_eq_self.mpr
      intro d hd
      exact decide_eq_true ((hmemdedup d).mpr (hscope t htT d hd))
    rw [hfe]
  have hscope0 : ∀ t ∈ tables.dedup, ∀ d ∈ depsOf dependencies t,
      d ∈ tables.dedup ∨ d ∈ ([] : List String) := by
    intro t ht d hd
    exact Or.inl ((hmemdedup d).mpr (hscope t ((hmemdedup t).mp ht) d hd))
  obtain ⟨hsucc, herr⟩ := topoLoop_spec dependencies hkeys tables.dedup.length
    tables.dedup le_rfl (initInDegree tables dependencies) [] []
    (List.nodup_dedup tables)
    (fun t ht => hdup t ((hmemdedup t).mp ht))
    hInd0 hscope0
  constructor
  · rintro ⟨rank, hrank⟩
    obtain ⟨extra, heq, hplaced, hflat⟩ := hsucc ⟨rank, fun t ht d hd hdr =>
      hrank t ((hmemdedup t).mp ht) d hd ((hmemdedup d).mp hdr)⟩
    refine ⟨extra, ?_, hplaced, ?_⟩
    · simp only [topological_sort]
      rw [heq, List.nil_append]
    · intro t
      rw [hflat t]
      exact hmemdedup t
  · intro l hl
    simp only [topological_sort] at hl
    obtain ⟨hlne, hmem, hstuck⟩ := herr l hl
    exact ⟨hlne, fun t ht => (hmemdedup t).mp (hmem t ht), hstuck⟩

open Dependency in
/-- Counterexample to C3 as stated: with tables = [b] and a dependency of b
on the unlisted table a there is no edge at all among the listed tables
(so certainly no cycle, and a trivial rank function exists), yet
topological_sort raises the circular-dependency error instead of returning
levels, because in-degrees count dependencies on unlisted tables too. -/
theorem topological_sort_spurious_cycle_error :
    (∀ t ∈ ["b"], ∀ d ∈ depsOf [("b", ["a"])] t, d ∈ ["b"] → False) ∧
    (∃ rank : String → Nat, ∀ t ∈ ["b"], ∀ d ∈ depsOf [("b", ["a"])] t,
      d ∈ ["b"] → rank d < rank t) ∧
    topological_sort ["b"] [("b", ["a"])] = .error ["b"] := by
  refine ⟨by decide, ⟨fun _ => 0, by decide⟩, ?_⟩
  rw [topological_sort, topoLoop]
  simp [initInDegree, depsOf]

open Dependency in
/-- Witness for C3 on the two-table graph events -> event_types. -/
theorem topological_sort_levels_ordered_witness :
    ((([("events", ["event_types"])] : DepGraph).map Prod.fst).Nodup ∧
     (∀ t ∈ ["event_types", "events"],
        ∀ d ∈ depsOf [("events", ["event_types"])] t, d ∈ ["event_types", "events"]) ∧
     (∀ t ∈ ["event_types", "events"],
        (depsOf [("events", ["event_types"])] t).Nodup)) ∧
    (((∃ rank : String → Nat, ∀ t ∈ ["event_types", "events"],
        ∀ d ∈ depsOf [("events", ["event_types"])] t,
        d ∈ ["event_types", "events"] → rank d < rank t) →
      ∃ levels, topological_sort ["event_types", "events"]
          [("events", ["event_types"])] = .ok levels ∧
        Placed (depsOf [("events", ["event_types"])]) [] levels ∧
        (∀ t, t ∈ levels.flatten ↔ t ∈ ["event_types", "events"])) ∧
    (∀ l, topological_sort ["event_types", "events"]
        [("events", ["event_types"])] = .error l →
      l ≠ [] ∧ (∀ t ∈ l, t ∈ ["event_types", "events"]) ∧
      (∀ t ∈ l, ∃ d ∈ depsOf [("events", ["event_types"])] t, d ∈ l))) :=
  ⟨⟨by decide, by decide, by decide⟩,
   topological_sort_levels_ordered ["event_types", "events"] [("events", ["event_types"])]
     (by decide) (by decide) (by decide)⟩
